import Mathlib

/-!
Verification of the Galil league-data reconciliation engine.

The definitions below are a shallow embedding of the JavaScript source:
the schema-normalisation, team-key canonicalisation, round rectification,
match-identity, dedupe/merge and standings code of the site script
(embedded in `src/README.md`) and of `scripts/fetch-data.js`.

Modelling conventions:
* JavaScript values that can be `null`/`undefined`, a finite number, or a
  string are modelled by `JsVal` (numbers as `Int`; the sources only work
  with integral scores/rounds, and `isFinite` always holds for `Int`).
* JavaScript strings are Lean `String`s; `String.length`/lexicographic
  comparison differ from UTF-16 only beyond the basic multilingual plane,
  which never occurs in this data.
* The host `new Date(...)` generic parser is implementation-defined; it is
  modelled as an explicit parameter `dateParse : String → Option String`
  returning the 24-character `toISOString()` rendering on success.
* In-place mutation is modelled by returning the updated value.
-/

namespace Galil

/-- A JavaScript value as consumed by the score/round coercion helpers:
`null`/`undefined`, a finite number, or a string. A finite JavaScript
number is an exact rational (every IEEE double value is), so numbers are
carried as `ℚ`; fractional values flow through `toIntOrNull` and
`roundToNumber` unchanged, exactly as in the source. -/
inductive JsVal where
  | jnull : JsVal
  | jnum (n : ℚ) : JsVal
  | jstr (s : String) : JsVal
deriving DecidableEq, Repr

/-- The JavaScript `\s` class (white space and line terminators), as used by
`String.prototype.trim` and the `\s` regex escapes in the sources:
space, tab, LF, CR, VT, FF, NBSP, and the Unicode space/separator
characters. -/
def jsWhite (c : Char) : Bool :=
  c.toNat = 0x20 || c.toNat = 0x09 || c.toNat = 0x0a || c.toNat = 0x0d ||
  c.toNat = 0x0b || c.toNat = 0x0c || c.toNat = 0xa0 || c.toNat = 0x1680 ||
  (0x2000 ≤ c.toNat && c.toNat ≤ 0x200a) ||
  c.toNat = 0x2028 || c.toNat = 0x2029 || c.toNat = 0x202f ||
  c.toNat = 0x205f || c.toNat = 0xfeff || c.toNat = 0x3000

/-- JavaScript `String.prototype.trim()`. -/
def jsTrim (s : String) : String :=
  String.mk (((s.data.dropWhile jsWhite).reverse.dropWhile jsWhite).reverse)

/-- Numeric value of a list of ASCII digits (decimal). -/
def digitsToNat (cs : List Char) : Nat :=
  cs.foldl (fun a c => a * 10 + (c.toNat - '0'.toNat)) 0

/-- Does `s` match the regex `^-?\d+$` (an optional sign and one or more
ASCII digits, nothing else)? Used by `toIntOrNull`. -/
def isIntegerLit (s : String) : Bool :=
  match s.data with
  | '-' :: rest => rest ≠ [] && rest.all Char.isDigit
  | cs => cs ≠ [] && cs.all Char.isDigit

/-- `parseInt(s, 10)` on a string already known to match `^-?\d+$`. -/
def parseIntLit (s : String) : Int :=
  match s.data with
  | '-' :: rest => -(digitsToNat rest : Int)
  | cs => (digitsToNat cs : Int)

/-- `toIntOrNull` from the site script: `null`/`undefined`/`''` give `null`;
a finite number is returned as is — despite the function's name, a
fractional number such as `2.5` comes back unchanged; a trimmed string
matching `^-?\d+$` is parsed with `parseInt`, anything else gives
`null`. -/
def toIntOrNull : JsVal → Option ℚ
  | .jnull => none
  | .jnum n => some n
  | .jstr v =>
    let s := jsTrim v
    if s = "" then none
    else if isIntegerLit s then some ((parseIntLit s : Int) : ℚ) else none

/-- The first maximal run of ASCII digits in `s` (the regex `/(\d+)/`),
or `none` when `s` contains no digit. -/
def firstDigitRun (s : String) : Option (List Char) :=
  let cs := s.data.dropWhile (fun c => !c.isDigit)
  if cs = [] then none else some (cs.takeWhile Char.isDigit)

/-- `roundToNumber` from the site script. `null` gives `null`; a finite
number is returned unchanged; for strings, the first digit run is parsed
and kept only when strictly positive. The trailing `parseInt(s, 10)`
branch of the source is only reached when the trimmed string contains no
digit at all, in which case `parseInt` yields `NaN` and the source returns
`null`; it is therefore modelled as `none`. -/
def roundToNumber : JsVal → Option ℚ
  | .jnull => none
  | .jnum n => some n
  | .jstr v =>
    let s := jsTrim v
    if s = "" then none
    else
      match firstDigitRun s with
      | some run =>
        let n : ℚ := (digitsToNat run : ℚ)
        if 0 < n then some n else none
      | none => none

example : toIntOrNull (.jstr "  3 ") = some 3 := by decide
example : toIntOrNull (.jstr "-12") = some (-12) := by decide
example : toIntOrNull (.jstr "a3") = none := by decide
example : roundToNumber (.jstr "round 2") = some 2 := by decide
example : roundToNumber (.jstr "-3") = some 3 := by decide
example : roundToNumber (.jnum 0) = some 0 := by decide
example : roundToNumber (.jstr "0") = none := by decide

/-- The characters removed by `normName`'s first replace: directional
markers and zero-width characters
(`[​-‍﻿⁠‎‏‪-‮]`). -/
def isBidiChar (c : Char) : Bool :=
  (0x200b ≤ c.toNat && c.toNat ≤ 0x200d) || c.toNat = 0xfeff ||
  c.toNat = 0x2060 || c.toNat = 0x200e || c.toNat = 0x200f ||
  (0x202a ≤ c.toNat && c.toNat ≤ 0x202e)

/-- The regex replace `\s+` → one copy of `r`, as a run-collapsing scan.
The flag records whether the previous character was part of a white-space
run (in which case the run's single replacement character was already
emitted). -/
def collapseWsWith (r : Char) : Bool → List Char → List Char
  | _, [] => []
  | prevWs, c :: cs =>
    if jsWhite c then
      if prevWs then collapseWsWith r true cs else r :: collapseWsWith r true cs
    else c :: collapseWsWith r false cs

/-- The replace `\s+` → one space. -/
def collapseWsAux : Bool → List Char → List Char := collapseWsWith ' '

/-- `normName` from the site script: strip directional/zero-width marks,
map `\xa0` to a space (the following `.replace(/ /g,' ')` of the source
maps a space to a space and is the identity), normalise dash variants,
drop the gershayim/double-quote characters, collapse white space, trim. -/
def normName (s : String) : String :=
  let cs := s.data.filter (fun c => !isBidiChar c)
  let cs := cs.map (fun c => if c.toNat = 0xa0 then ' ' else c)
  let cs := cs.map (fun c => if c.toNat = 0x2013 || c.toNat = 0x2014 then '-' else c)
  let cs := cs.filter (fun c => !(c = '"' || c.toNat = 0x05f4))
  jsTrim (String.mk (collapseWsAux false cs))

/-- The punctuation dropped by `normTeamKey`'s replace `["'׳״\.]`. -/
def teamPunct (c : Char) : Bool :=
  c = '"' || c.toNat = 0x27 || c.toNat = 0x05f3 || c.toNat = 0x05f4 || c = '.'

/-- The sponsor-suffix replace `(^|\s)צו\s*פיוס(\s|$)` → one space, acting
on the space-separated word list of an already space-normalised string.
The Boolean records whether a boundary (`^` or an unconsumed space) is
available before the current word; a match consumes its trailing space,
so the word right after a removal cannot start a new match. -/
def removeSponsorWords : Bool → List String → List String
  | _, [] => []
  | avail, [w] => if avail ∧ w = "צופיוס" then [] else [w]
  | avail, w :: w2 :: rest2 =>
    if avail ∧ w = "צופיוס" then removeSponsorWords false (w2 :: rest2)
    else if avail ∧ w = "צו" ∧ w2 = "פיוס" then removeSponsorWords false rest2
    else w :: removeSponsorWords true (w2 :: rest2)

/-- `s.split(sep)` for a one-character separator (kernel-reducible
reimplementation of `String.splitOn`). -/
def splitCharAux (sep : Char) : List Char → List Char → List String
  | [], cur => [String.mk cur.reverse]
  | c :: cs, cur =>
    if c = sep then String.mk cur.reverse :: splitCharAux sep cs []
    else splitCharAux sep cs (c :: cur)

/-- See `splitCharAux`. -/
def splitChar (sep : Char) (s : String) : List String :=
  splitCharAux sep s.data []

/-- `Array.prototype.join(sep)` (kernel-reducible reimplementation of
`String.intercalate`). -/
def joinSep (sep : String) : List String → String
  | [] => ""
  | [w] => w
  | w :: rest => w ++ sep ++ joinSep sep rest

/-- `normTeamKey` from the site script: `normName`, then strip quote/dot
punctuation, collapse the sponsor phrase, re-collapse white space, trim. -/
def normTeamKey (s : String) : String :=
  let base := normName s
  let noPunct := String.mk (base.data.filter (fun c => !teamPunct c))
  let words := (splitChar ' ' noPunct).filter (fun w => w ≠ "")
  let words := removeSponsorWords true words
  jsTrim (String.mk (collapseWsAux false (joinSep " " words).data))

/-- JavaScript `s.includes(sub)`: substring containment. -/
def jsIncludes (s sub : String) : Bool :=
  s.data.tails.any (fun t => sub.data.isPrefixOf t)

/-- The ambient data of the site script used by team canonicalisation:
`LEAGUE_DATA.team` and the cached canonical roster built by
`buildCanonTeamKeys()` (a list of `normTeamKey` outputs in insertion
order). -/
structure Env where
  team : String
  canon : List String
deriving DecidableEq

/-- `canonicalTeamKey` from the site script: exact roster hit, otherwise
the longest roster key related to the candidate by substring containment
(first found wins ties), otherwise the candidate key itself. -/
def canonicalTeamKey (env : Env) (name : String) : String :=
  let k := normTeamKey name
  if k = "" then ""
  else if env.canon.contains k then k
  else
    let best := env.canon.foldl
      (fun (acc : String × Nat) ck =>
        if ck = "" ∨ ck = k then acc
        else if jsIncludes k ck then
          (if ck.length > acc.2 then (ck, ck.length) else acc)
        else if jsIncludes ck k then
          (if k.length > acc.2 then (ck, k.length) else acc)
        else acc)
      (k, 0)
    best.1

/-- `isMyTeam` from the site script: exact `normTeamKey` match with the
configured team, or both keys containing the core phrase. -/
def isMyTeam (env : Env) (name : String) : Bool :=
  let a := normTeamKey name
  let b := normTeamKey env.team
  if a = b then true
  else jsIncludes a "גליל עליון" && jsIncludes b "גליל עליון"

/-- The canonical `Match` record shape produced by normalisation
(`id, home, away, hs, as, date, time, venue, round, round_number`). -/
structure Match where
  id : String
  home : String
  away : String
  hs : Option ℚ
  as : Option ℚ
  date : String
  time : String
  venue : String
  round : Option ℚ
  round_number : Option ℚ
deriving DecidableEq, Repr

/-- `opponentOf` from the site script. -/
def opponentOf (env : Env) (m : Match) : String :=
  if isMyTeam env m.home then m.away else m.home

/-- `normDateKey`'s `DD/MM/YYYY` (also `D/M/YYYY`) regex
`^(\d{1,2})\/(\d{1,2})\/(\d{4})$`, returning the three captures. -/
def ddmmyyyyParts (s : String) : Option (String × String × String) :=
  match splitChar '/' s with
  | [d, m, y] =>
    if d ≠ "" ∧ d.length ≤ 2 ∧ d.data.all Char.isDigit ∧
       m ≠ "" ∧ m.length ≤ 2 ∧ m.data.all Char.isDigit ∧
       y.length = 4 ∧ y.data.all Char.isDigit
    then some (d, m, y) else none
  | _ => none

/-- `String(x).padStart(2,'0')` for a nonempty digit string. -/
def pad2 (s : String) : String := if s.length = 1 then "0" ++ s else s

/-- The regex `^\d{4}-\d{2}-\d{2}$`. -/
def isIsoDateShape (s : String) : Bool :=
  match s.data with
  | [y1, y2, y3, y4, h1, m1, m2, h2, d1, d2] =>
    y1.isDigit && y2.isDigit && y3.isDigit && y4.isDigit && h1 = '-' &&
    m1.isDigit && m2.isDigit && h2 = '-' && d1.isDigit && d2.isDigit
  | _ => false

/-- `normDateKey` from the site script. In the source both of the final
branches (`YYYY-MM-DD` test and the fall-through) return `s` unchanged. -/
def normDateKey (d : String) : String :=
  let s := jsTrim d
  if s = "" then ""
  else
    let s := if s.data.contains 'T' then jsTrim (String.mk (s.data.takeWhile (· ≠ 'T'))) else s
    match ddmmyyyyParts s with
    | some (dd, mm, y) => y ++ "-" ++ pad2 mm ++ "-" ++ pad2 dd
    | none => if isIsoDateShape s then s else s

/-- `normTimeKey` from the site script: trim, then `slice(0,5)` when at
least five characters long. -/
def normTimeKey (t : String) : String :=
  let s := jsTrim t
  if s = "" then ""
  else if 5 ≤ s.length then String.mk (s.data.take 5) else s

/-- `firstDefined` restricted to two number-or-null arguments, as used for
`firstDefined(m.round_number, m.round)` (the `''` skip of the source
cannot fire on numbers). -/
def firstDefinedI (a b : Option ℚ) : Option ℚ :=
  match a with
  | some n => some n
  | none => b

/-- `roundToNumber(firstDefined(m.round_number, m.round))` on a canonical
match record. -/
def roundOfMatch (m : Match) : Option ℚ :=
  roundToNumber
    (match firstDefinedI m.round_number m.round with
     | some n => .jnum n
     | none => .jnull)

/-- `Array.prototype.join('|')`. -/
def joinBar : List String → String
  | [] => ""
  | [s] => s
  | s :: rest => s ++ "|" ++ joinBar rest

/-- JavaScript's default `Array.prototype.sort()` string comparison
(lexicographic on code units), on char lists. -/
def lexLt : List Char → List Char → Bool
  | _, [] => false
  | [], _ :: _ => true
  | a :: as, b :: bs =>
    if a.toNat < b.toNat then true
    else if a.toNat = b.toNat then lexLt as bs
    else false

/-- String version of `lexLt`. -/
def strLtJs (s t : String) : Bool := lexLt s.data t.data

/-- `pair.sort()` followed by `pair[0] || ''`, `pair[1] || ''` for the
(at most two-element) filtered team pair. -/
def sortPairJs : List String → String × String
  | [] => ("", "")
  | [x] => (x, "")
  | x :: y :: _ => if strLtJs y x then (y, x) else (x, y)

/-- Zero-pad `s` on the left to `k` characters. -/
def padZeros (s : String) (k : Nat) : String :=
  String.mk (List.replicate (k - s.length) '0') ++ s

/-- `String(n)` inside a template literal, for the numbers the scripts
interpolate (round numbers). An integer renders as its decimal numeral; a
non-integer with a finite decimal expansion (every JavaScript number value
has one, of at most 1074 fractional digits) renders as that exact
expansion; any other rational is unreachable from a JavaScript number and
falls back to a `num/den` rendering. -/
def jsNumToString (q : ℚ) : String :=
  if q.den = 1 then toString q.num
  else
    match (List.range 1075).find? (fun k => (q * (10 : ℚ) ^ k).den = 1) with
    | some k =>
      let m := (q * (10 : ℚ) ^ k).num
      (if m < 0 then "-" else "") ++ toString (m.natAbs / 10 ^ k) ++ "." ++
        padZeros (toString (m.natAbs % 10 ^ k)) k
    | none => toString q.num ++ "/" ++ toString q.den

/-- `isMyTeam(m.home) || isMyTeam(m.away)` — is this a tracked-team match? -/
def isOursMatch (env : Env) (m : Match) : Bool :=
  isMyTeam env m.home || isMyTeam env m.away

/-- `matchNaturalKey` from the site script: the dedupe identity key. -/
def matchNaturalKey (env : Env) (m : Match) : String :=
  let d := normDateKey m.date
  let t := normTimeKey m.time
  let h := canonicalTeamKey env m.home
  let a := canonicalTeamKey env m.away
  let r := roundOfMatch m
  let timePart := if t ≠ "" ∧ t ≠ "00:00" then t else ""
  if isOursMatch env m then
    let opp := canonicalTeamKey env (opponentOf env m)
    if d ≠ "" then joinBar ["MY", d, opp]
    else
      match r with
      | some rv => joinBar ["MYR", jsNumToString rv, opp]
      | none => joinBar ["MY", timePart, opp]
  else
    let p := sortPairJs (([h, a]).filter (fun x => x ≠ ""))
    if d ≠ "" ∧ timePart ≠ "" then joinBar [d, timePart, p.1, p.2]
    else if d ≠ "" then joinBar [d, p.1, p.2]
    else
      joinBar [(match r with | some rv => jsNumToString rv | none => ""),
               timePart, p.1, p.2]

/-- `a.hs != null && a.as != null`. -/
def hasScore (m : Match) : Bool := m.hs.isSome && m.as.isSome

/-- `!!(a.venue && String(a.venue).trim())`. -/
def hasVenue (m : Match) : Bool := jsTrim m.venue ≠ ""

/-- `!!(a.time && a.time !== '00:00')`. -/
def hasRealTime (m : Match) : Bool := m.time ≠ "" && m.time ≠ "00:00"

/-- `chooseBetterMatch(a, b)` from the site script, returned as
"the first argument wins" (the source returns one of the two object
references; the subsequent `winner === prev` test is reference
identity). -/
def chooseBetterFirst (a b : Match) : Bool :=
  if hasScore a ≠ hasScore b then hasScore a
  else if hasVenue a ≠ hasVenue b then hasVenue a
  else if hasRealTime a ≠ hasRealTime b then hasRealTime a
  else if a.id ≠ "" ∧ b.id ≠ "" ∧ a.id.length ≠ b.id.length then
    decide (a.id.length < b.id.length)
  else true

/-- `mergeMatchFields(base, other)` from the site script. The source
computes `rnA` from `out` after the field fills, but no fill touches the
round fields, so it equals the resolved round of `base`. -/
def mergeMatchFields (base other : Match) : Match :=
  let hsas : Option ℚ × Option ℚ :=
    if base.hs = none ∧ base.as = none ∧ other.hs ≠ none ∧ other.as ≠ none
    then (other.hs, other.as) else (base.hs, base.as)
  let rn := firstDefinedI (roundOfMatch base) (roundOfMatch other)
  { id := base.id
    home := if base.home = "" ∧ other.home ≠ "" then other.home else base.home
    away := if base.away = "" ∧ other.away ≠ "" then other.away else base.away
    hs := hsas.1
    as := hsas.2
    date := if base.date = "" ∧ other.date ≠ "" then other.date else base.date
    time :=
      if (base.time = "" ∨ base.time = "00:00") ∧
         other.time ≠ "" ∧ other.time ≠ "00:00"
      then other.time else base.time
    venue := if base.venue = "" ∧ other.venue ≠ "" then other.venue else base.venue
    round := rn
    round_number := rn }

/-- `byKey.get(key)` on the insertion-ordered association list modelling
the `Map`. -/
def lookupKey (acc : List (String × Match)) (k : String) : Option Match :=
  match acc.find? (fun p => decide (p.1 = k)) with
  | some p => some p.2
  | none => none

/-- `byKey.set(key, v)` for a key already present (JavaScript `Map.set`
keeps the key's original position). -/
def setKey (acc : List (String × Match)) (k : String) (v : Match) :
    List (String × Match) :=
  acc.map (fun p => if p.1 = k then (p.1, v) else p)

/-- One collision resolution of `dedupeMatches`: pick the winner with
`chooseBetterMatch` and merge the loser into it. -/
def pairStep (prev m : Match) : Match :=
  if chooseBetterFirst prev m then mergeMatchFields prev m
  else mergeMatchFields m prev

/-- The body of `dedupeMatches`' loop for one (non-null) match. -/
def dedupeStep (env : Env) (acc : List (String × Match)) (m : Match) :
    List (String × Match) :=
  let key := matchNaturalKey env m
  match lookupKey acc key with
  | none => acc ++ [(key, m)]
  | some prev => setKey acc key (pairStep prev m)

/-- `dedupeMatches` from the site script: group by `matchNaturalKey` in an
insertion-ordered map, resolve collisions with
`chooseBetterMatch`/`mergeMatchFields`, return the map's values. -/
def dedupeMatches (env : Env) (list : List Match) : List Match :=
  (list.foldl (dedupeStep env) []).map (fun p => p.2)

/-! ### SchemaNormalizer: `normalizeDateToISO`, `normalizeTimeToHHMM` and
the per-record mappers of `normalizeMatches`.

The host's generic `new Date(...)` parser is implementation-defined and is
modelled by the explicit parameter `dateParse : String → Option String`,
returning the 24-character `toISOString()` rendering when the host parses
the string and `none` when it yields an invalid date. -/

/-- `normalizeDateToISO`'s `DD/MM/YYYY` (also `D/M/YY`) regex
`^(\d{1,2})\/(\d{1,2})\/(\d{2,4})$` (two- to four-digit years), returning
the three captures. -/
def ddmmyy24Parts (s : String) : Option (String × String × String) :=
  match splitChar '/' s with
  | [d, m, y] =>
    if d ≠ "" ∧ d.length ≤ 2 ∧ d.data.all Char.isDigit ∧
       m ≠ "" ∧ m.length ≤ 2 ∧ m.data.all Char.isDigit ∧
       2 ≤ y.length ∧ y.length ≤ 4 ∧ y.data.all Char.isDigit
    then some (d, m, y) else none
  | _ => none

/-- `normalizeDateToISO` from the site script. -/
def normalizeDateToISO (dateParse : String → Option String) (v : String) :
    String :=
  let s := jsTrim v
  if s = "" then ""
  else if s.data.contains 'T' ∧ 10 ≤ s.length then String.mk (s.data.take 10)
  else if isIsoDateShape s then s
  else
    match ddmmyy24Parts s with
    | some (dd, mm, yy) =>
      let y := if yy.length = 2 then "20" ++ yy else yy
      y ++ "-" ++ pad2 mm ++ "-" ++ pad2 dd
    | none =>
      match dateParse s with
      | some iso => String.mk (iso.data.take 10)
      | none => s

/-- `normalizeTimeToHHMM`'s regex `^(\d{1,2}):(\d{2})(?::\d{2})?$`,
returning the two captures. -/
def hhmmParts (s : String) : Option (String × String) :=
  match splitChar ':' s with
  | [h, m] =>
    if h ≠ "" ∧ h.length ≤ 2 ∧ h.data.all Char.isDigit ∧
       m.length = 2 ∧ m.data.all Char.isDigit
    then some (h, m) else none
  | [h, m, sec] =>
    if h ≠ "" ∧ h.length ≤ 2 ∧ h.data.all Char.isDigit ∧
       m.length = 2 ∧ m.data.all Char.isDigit ∧
       sec.length = 2 ∧ sec.data.all Char.isDigit
    then some (h, m) else none
  | _ => none

/-- `normalizeTimeToHHMM` from the site script. -/
def normalizeTimeToHHMM (v : String) : String :=
  let s := jsTrim v
  if s = "" then ""
  else if s.data.contains 'T' ∧ 16 ≤ s.length then
    String.mk ((s.data.drop 11).take 5)
  else
    match hhmmParts s with
    | some (h, m) => pad2 h ++ ":" ++ pad2 m
    | none => s

/-- The per-field score coercion of `normalizeMatches`:
`(() => { const n = toIntOrNull(v); return (n != null && n >= 0) ? n : null; })()`. -/
def nonNegScore (v : JsVal) : Option ℚ :=
  match toIntOrNull v with
  | some n => if 0 ≤ n then some n else none
  | none => none

/-- `firstDefined(...)`: the first argument that is not `undefined`, `null`
or `''` (`undefined` and `null` are both modelled by `jnull`). -/
def firstDefinedJs : List JsVal → JsVal
  | [] => .jnull
  | v :: rest => if v ≠ .jnull ∧ v ≠ .jstr "" then v else firstDefinedJs rest

/-- `a || b` for strings (with `|| ''` terminating the source's chains). -/
def jsOr (a b : String) : String := if a ≠ "" then a else b

/-- `a || b || ''` over possibly-missing strings
(for `g.home?.team?.provider?.name || g.home?.team?.one?.name || ''`). -/
def jsOrOpt : List (Option String) → String
  | [] => ""
  | some s :: rest => if s ≠ "" then s else jsOrOpt rest
  | none :: rest => jsOrOpt rest

/-- The fallback identifier template
`` `R${roundNum ?? 'X'}|${date}|${time}|${home}|${away}`.replace(/\s+/g,'_') ``. -/
def mkFallbackId (rn : Option ℚ) (date time home away : String) : String :=
  String.mk (collapseWsWith '_' false
    ("R" ++ (match rn with | some n => jsNumToString n | none => "X") ++ "|" ++
     date ++ "|" ++ time ++ "|" ++ home ++ "|" ++ away).data)

/-- A raw record of `normalizeMatches` case A (the array sample already has
`hs`/`as`): the fields the mapper reads, with absent string fields as `""`
(the source's `|| ''`) and score/round fields as raw JavaScript values.
The `{...m}` spread carries `id`/`home`/`away`/`venue` through unchanged. -/
structure RawA where
  id : String
  home : String
  away : String
  hs : JsVal
  as : JsVal
  date : String
  time : String
  venue : String
  round_number : JsVal
  round : JsVal
  roundName : JsVal
  round_name : JsVal
deriving DecidableEq, Repr

/-- The case A mapper of `normalizeMatches`. -/
def normalizeMatchA (dateParse : String → Option String) (m : RawA) : Match :=
  let rn := roundToNumber
    (firstDefinedJs [m.round_number, m.round, m.roundName, m.round_name])
  { id := m.id
    home := m.home
    away := m.away
    hs := nonNegScore m.hs
    as := nonNegScore m.as
    date := normalizeDateToISO dateParse m.date
    time := normalizeTimeToHHMM m.time
    venue := m.venue
    round := rn
    round_number := rn }

/-- A raw record of `normalizeMatches` case B (the updater's
`home_goals`/`away_goals` shape). -/
structure RawB where
  id : String
  home : String
  home_team : String
  away : String
  away_team : String
  home_goals : JsVal
  away_goals : JsVal
  round_number : JsVal
  round : JsVal
  round_name : JsVal
  roundName : JsVal
  date : String
  time : String
  location : String
  venue : String
deriving DecidableEq, Repr

/-- The case B mapper of `normalizeMatches`. -/
def normalizeMatchB (dateParse : String → Option String) (m : RawB) : Match :=
  let hs := nonNegScore m.home_goals
  let as := nonNegScore m.away_goals
  let roundNum := roundToNumber
    (firstDefinedJs [m.round_number, m.round, m.round_name, m.roundName])
  let home := jsOr m.home m.home_team
  let away := jsOr m.away m.away_team
  let date := normalizeDateToISO dateParse m.date
  let time := normalizeTimeToHHMM m.time
  let id := if m.id ≠ "" then m.id
            else mkFallbackId roundNum date time home away
  { id := id
    home := home
    away := away
    hs := hs
    as := as
    date := date
    time := time
    venue := jsOr m.location m.venue
    round := roundNum
    round_number := roundNum }

/-- A raw record of `normalizeMatches` case C (the raw VOLE `games` shape),
with the nested accesses flattened to the fields the mapper reads.
`String(g._id || g.id || '')` is modelled by two string fields. -/
structure RawC where
  rawId1 : String
  rawId2 : String
  date : String
  home_provider_name : Option String
  home_one_name : Option String
  away_provider_name : Option String
  away_one_name : Option String
  home_goals : JsVal
  away_goals : JsVal
  round_number : JsVal
  round_name : JsVal
deriving DecidableEq, Repr

/-- The case C mapper of `normalizeMatches`: `new Date(g.date)` is the
host parser `dateParse`; on success the date/time are `toISOString()`
slices, otherwise `''`. -/
def normalizeMatchC (dateParse : String → Option String) (g : RawC) : Match :=
  let dtISO := dateParse g.date
  let date := match dtISO with
              | some iso => String.mk (iso.data.take 10)
              | none => ""
  let time := match dtISO with
              | some iso => String.mk ((iso.data.drop 11).take 5)
              | none => ""
  let home := jsOrOpt [g.home_provider_name, g.home_one_name]
  let away := jsOrOpt [g.away_provider_name, g.away_one_name]
  let hs := nonNegScore g.home_goals
  let as := nonNegScore g.away_goals
  let round_number := roundToNumber (firstDefinedJs [g.round_number, g.round_name])
  let id := if jsTrim (jsOr g.rawId1 g.rawId2) ≠ ""
            then jsTrim (jsOr g.rawId1 g.rawId2)
            else mkFallbackId round_number date time home away
  { id := id
    home := home
    away := away
    hs := hs
    as := as
    date := date
    time := time
    venue := ""
    round := round_number
    round_number := round_number }

/-! ### RoundNumberRectifier (`normalizeRoundNumbersIfZeroBased`,
`scripts/fetch-data.js`).

A game's `round.number` is a number or not (`typeof n === "number"`),
modelled as `Option Int`; `leagueInfo.currentRoundNumber` likewise.
The in-place mutation is modelled by returning the updated game rounds,
the updated current round, and the returned shift. -/

/-- `normalizeRoundNumbersIfZeroBased(games, leagueInfo)`. -/
def normalizeRoundNumbersIfZeroBased (games : List (Option Int))
    (cur : Option Int) : List (Option Int) × Option Int × Nat :=
  let nums := games.filterMap id
  let minv : Option Int := nums.min?
  let shift : Nat := if minv = some 0 then 1 else 0
  if shift ≠ 0 then
    (games.map (Option.map (fun n => n + (shift : Int))),
     (match cur with | some c => some (c + (shift : Int)) | none => none),
     shift)
  else (games, cur, shift)

/-! ### StandingsComputer (`computeTable`). -/

/-- One accumulator row of `computeTable` (`{name, p, w, d, l, gf, ga, pts}`). -/
structure Row where
  name : String
  p : Int
  w : Int
  d : Int
  l : Int
  gf : ℚ
  ga : ℚ
  pts : Int
deriving DecidableEq, Repr

/-- An output row of `computeTable` (`{...t, gd: t.gf - t.ga}`). -/
structure Standing where
  name : String
  p : Int
  w : Int
  d : Int
  l : Int
  gf : ℚ
  ga : ℚ
  pts : Int
  gd : ℚ
deriving DecidableEq, Repr

/-- A fresh all-zero row for a team key. -/
def freshRow (key : String) : Row :=
  { name := key, p := 0, w := 0, d := 0, l := 0, gf := 0, ga := 0, pts := 0 }

/-- `ensure(name)`: add an all-zero row for the `normName` key when
absent (the `Map` keeps insertion order). -/
def ensureTeam (tab : List (String × Row)) (name : String) :
    List (String × Row) :=
  let key := normName name
  if (tab.find? (fun p => decide (p.1 = key))).isSome then tab
  else tab ++ [(key, freshRow key)]

/-- One in-place mutation of the row stored under `key` (rows are shared
references in the source: when home and away have the same key, both
mutations hit the same row, which this list update reproduces). -/
def updRow (tab : List (String × Row)) (key : String) (f : Row → Row) :
    List (String × Row) :=
  tab.map (fun q => if q.1 = key then (q.1, f q.2) else q)

/-- The body of `computeTable`'s loop for one match: skip matches missing
either score, otherwise count the played game, goals, and outcome for both
teams. -/
def tableStep (tab : List (String × Row)) (m : Match) : List (String × Row) :=
  match m.hs, m.as with
  | some hs, some as =>
    let hk := normName m.home
    let ak := normName m.away
    let tab := ensureTeam tab m.home
    let tab := ensureTeam tab m.away
    let tab := updRow tab hk (fun r => { r with p := r.p + 1 })
    let tab := updRow tab ak (fun r => { r with p := r.p + 1 })
    let tab := updRow tab hk (fun r => { r with gf := r.gf + hs, ga := r.ga + as })
    let tab := updRow tab ak (fun r => { r with gf := r.gf + as, ga := r.ga + hs })
    if as < hs then
      updRow (updRow tab hk (fun r => { r with w := r.w + 1, pts := r.pts + 3 }))
        ak (fun r => { r with l := r.l + 1 })
    else if hs < as then
      updRow (updRow tab ak (fun r => { r with w := r.w + 1, pts := r.pts + 3 }))
        hk (fun r => { r with l := r.l + 1 })
    else
      updRow (updRow tab hk (fun r => { r with d := r.d + 1, pts := r.pts + 1 }))
        ak (fun r => { r with d := r.d + 1, pts := r.pts + 1 })
  | _, _ => tab

/-- The sort comparator of `computeTable` as "a sorts no later than b":
points descending, then goal difference, then goals for. -/
def stRel (a b : Standing) : Prop :=
  b.pts < a.pts ∨
  (a.pts = b.pts ∧ (b.gd < a.gd ∨ (a.gd = b.gd ∧ b.gf ≤ a.gf)))

instance : DecidableRel stRel := fun a b => by unfold stRel; infer_instance

/-- `computeTable` from the site script, over its input match list
(`state.allMatches` when nonempty, else `state.matches`; both are match
lists, which is the parameter here). The source's stable `Array.sort` is
an insertion sort. -/
def computeTable (ms : List Match) : List Standing :=
  let tab := ms.foldl tableStep []
  let arr := tab.map (fun q =>
    ({ name := q.2.name, p := q.2.p, w := q.2.w, d := q.2.d, l := q.2.l,
       gf := q.2.gf, ga := q.2.ga, pts := q.2.pts,
       gd := q.2.gf - q.2.ga } : Standing))
  List.insertionSort stRel arr

/-! ### Specification-side description of deduplication (for the
refinement claim): one merged match per distinct identity key, in
first-occurrence order of the keys. -/

/-- The distinct values of `ks` in first-occurrence order. -/
def firstKeys (ks : List String) : List String :=
  ks.foldl (fun acc k => if acc.any (fun x => decide (x = k)) then acc
                         else acc ++ [k]) []

/-- Left fold of the winner-pick/merge collision step over a group. -/
def mergeGroup (m : Match) (rest : List Match) : Match :=
  rest.foldl pairStep m

/-- The all-empty match (unreachable default for an empty key group). -/
def emptyMatch : Match :=
  { id := "", home := "", away := "", hs := none, as := none, date := "",
    time := "", venue := "", round := none, round_number := none }

/-- The merged representative of the identity-key group `k` inside
`list`. -/
def specEntry (env : Env) (list : List Match) (k : String) : Match :=
  match list.filter (fun m => decide (matchNaturalKey env m = k)) with
  | [] => emptyMatch
  | m :: rest => mergeGroup m rest

/-- Modelled from the spec's words (§4.5 output contract): deduplication
produces one merged match per distinct identity key, each obtained by
folding the collision step over that key's group, keys in first-occurrence
order. -/
def dedupeMatchesSpec (env : Env) (list : List Match) : List Match :=
  (firstKeys (list.map (matchNaturalKey env))).map (specEntry env list)

/-! ### Concrete data and well-formedness predicates used by the
claim statements below. -/

/-- A score field is acceptable when it is absent or a non-negative
number. -/
def scoreOk (o : Option ℚ) : Prop := o = none ∨ ∃ n, o = some n ∧ 0 ≤ n

/-- A host date parser that parses nothing (`new Date(s)` invalid for
every `s` fed to it in the statements below, e.g. `"hello"`). -/
def noParse : String → Option String := fun _ => none

/-- A case A raw record carrying a home score and a null away score. -/
def rawA0 : RawA :=
  { id := "g1", home := "h", away := "a", hs := .jnum 3, as := .jnull,
    date := "", time := "", venue := "", round_number := .jnull,
    round := .jnull, roundName := .jnull, round_name := .jnull }

/-- A case A raw record carrying the fractional numeric score `2.5` (a
reachable JavaScript number, e.g. from a malformed feed). -/
def rawAq : RawA :=
  { id := "g2", home := "h", away := "a", hs := .jnum (mkRat 5 2), as := .jnum 1,
    date := "", time := "", venue := "", round_number := .jnull,
    round := .jnull, roundName := .jnull, round_name := .jnull }

/-- The tracked-team environment of the C1/C6 witnesses. -/
def envW : Env := ⟨"הפועל גליל עליון", []⟩

/-- First tracked-team witness record: round 1, with a score. -/
def w1 : Match :=
  { id := "M01", home := "הפועל גליל עליון", away := "עירוני קרית שמונה",
    hs := some 2, as := some 1, date := "2024-03-01", time := "15:00",
    venue := "", round := some 1, round_number := some 1 }

/-- Second tracked-team witness record: same date and opponent, round 2,
different identifier, no score. -/
def w2 : Match :=
  { id := "G-77214", home := "הפועל גליל עליון",
    away := "עירוני קרית שמונה", hs := none, as := none,
    date := "2024-03-01", time := "", venue := "", round := some 2,
    round_number := some 2 }

/-- First league witness record. -/
def w3 : Match :=
  { id := "A1", home := "בני יהודה", away := "מכבי חיפה",
    hs := some 0, as := some 0, date := "2024-04-05", time := "18:30",
    venue := "", round := some 7, round_number := some 7 }

/-- Second league witness record: home and away swapped, same date and
time, different identifier. -/
def w4 : Match :=
  { id := "B2", home := "מכבי חיפה", away := "בני יהודה",
    hs := none, as := none, date := "2024-04-05", time := "18:30",
    venue := "", round := some 7, round_number := some 7 }

/-- The `HH:MM` shape (two digits, colon, two digits). -/
def isHhmmShape (s : String) : Bool :=
  match s.data with
  | [h1, h2, c, m1, m2] =>
    h1.isDigit && h2.isDigit && c = ':' && m1.isDigit && m2.isDigit
  | _ => false

/-- A string free of the `'|'` key separator. -/
def noBar (s : String) : Prop := '|' ∉ s.data

instance (s : String) : Decidable (noBar s) := by
  unfold noBar
  infer_instance

/-- A well-formed time field: empty, the unscheduled sentinel, or
`HH:MM`. -/
def wfTime (t : String) : Prop :=
  t = "" ∨ t = "00:00" ∨ isHhmmShape t = true

instance (t : String) : Decidable (wfTime t) := by
  unfold wfTime
  infer_instance

/-- A well-formed normalized match for the dedupe-idempotence statement:
its date normalizes to a `YYYY-MM-DD`-shaped key, its time is empty,
`00:00`, or `HH:MM`, and both team names are present with
separator-free canonical keys. -/
def wfMatch (env : Env) (m : Match) : Prop :=
  isIsoDateShape (normDateKey m.date) = true ∧
  wfTime m.time ∧
  m.home ≠ "" ∧ m.away ≠ "" ∧
  noBar (canonicalTeamKey env m.home) ∧ noBar (canonicalTeamKey env m.away)

instance (env : Env) (m : Match) : Decidable (wfMatch env m) := by
  unfold wfMatch
  infer_instance

/-- The `timePart` of `matchNaturalKey`, as a named function. -/
def timePartOf (m : Match) : String :=
  if normTimeKey m.time ≠ "" ∧ normTimeKey m.time ≠ "00:00"
  then normTimeKey m.time else ""

/-- First record of the idempotence counterexample: a junk date that
already embeds `date|time`, no time, a venue (so it wins its group). -/
def cA : Match :=
  { id := "idA", home := "x", away := "y", hs := none, as := none,
    date := "2024-01-01|14:30", time := "", venue := "v", round := none,
    round_number := none }

/-- Second record: a clean date and a real time; its key collides with
`cA`'s. -/
def cB : Match :=
  { id := "idB", home := "x", away := "y", hs := none, as := none,
    date := "2024-01-01", time := "14:30", venue := "", round := none,
    round_number := none }

/-- Third record: `cA`'s junk date together with a real time; its key is
exactly what merging `cB` into `cA` produces. -/
def cC : Match :=
  { id := "idC", home := "x", away := "y", hs := none, as := none,
    date := "2024-01-01|14:30", time := "14:30", venue := "", round := none,
    round_number := none }

/-- Two well-formed league records for the idempotence witness. -/
def v1 : Match :=
  { id := "idA", home := "aa", away := "bb", hs := some 1, as := some 0,
    date := "2024-05-01", time := "14:30", venue := "", round := some 3,
    round_number := some 3 }

/-- See `v1`. -/
def v2 : Match :=
  { id := "idB", home := "bb", away := "aa", hs := none, as := none,
    date := "2024-05-01", time := "", venue := "g", round := some 4,
    round_number := some 4 }

/-- One keyed in-place row mutation, as a per-entry function; a list of
them composes the sequential `updRow` calls of `tableStep`. -/
def applyKeyed (ops : List (String × (Row → Row))) (q : String × Row) :
    String × Row :=
  ops.foldl (fun q op => if q.1 = op.1 then (q.1, op.2 q.2) else q) q

/-- The per-row standings invariant: played games split into outcomes and
points reflect them. -/
def rowBalanced (r : Row) : Prop :=
  r.p = r.w + r.d + r.l ∧ r.pts = 3 * r.w + r.d

/-- The accumulator invariant of `computeTable`'s fold: unique team keys,
balanced rows, and goals as a zero-sum exchange. -/
def tableInv (tab : List (String × Row)) : Prop :=
  (tab.map Prod.fst).Nodup ∧
  (∀ q ∈ tab, rowBalanced q.2) ∧
  (tab.map (fun q => q.2.gf)).sum = (tab.map (fun q => q.2.ga)).sum

/-- The six keyed row updates `tableStep` performs when the home side wins. -/
def winOps (hk ak : String) (hs as : ℚ) : List (String × (Row → Row)) :=
  [(hk, fun r => { r with p := r.p + 1 }),
   (ak, fun r => { r with p := r.p + 1 }),
   (hk, fun r => { r with gf := r.gf + hs, ga := r.ga + as }),
   (ak, fun r => { r with gf := r.gf + as, ga := r.ga + hs }),
   (hk, fun r => { r with w := r.w + 1, pts := r.pts + 3 }),
   (ak, fun r => { r with l := r.l + 1 })]

/-- The six keyed row updates `tableStep` performs when the away side wins. -/
def lossOps (hk ak : String) (hs as : ℚ) : List (String × (Row → Row)) :=
  [(hk, fun r => { r with p := r.p + 1 }),
   (ak, fun r => { r with p := r.p + 1 }),
   (hk, fun r => { r with gf := r.gf + hs, ga := r.ga + as }),
   (ak, fun r => { r with gf := r.gf + as, ga := r.ga + hs }),
   (ak, fun r => { r with w := r.w + 1, pts := r.pts + 3 }),
   (hk, fun r => { r with l := r.l + 1 })]

/-- The six keyed row updates `tableStep` performs on a draw. -/
def drawOps (hk ak : String) (hs as : ℚ) : List (String × (Row → Row)) :=
  [(hk, fun r => { r with p := r.p + 1 }),
   (ak, fun r => { r with p := r.p + 1 }),
   (hk, fun r => { r with gf := r.gf + hs, ga := r.ga + as }),
   (ak, fun r => { r with gf := r.gf + as, ga := r.ga + hs }),
   (hk, fun r => { r with d := r.d + 1, pts := r.pts + 1 }),
   (ak, fun r => { r with d := r.d + 1, pts := r.pts + 1 })]

/-! ## Helper lemmas -/

/-- Filtering the present values out of shifted options shifts the
filtered values. -/
theorem filterMap_optAdd (k : Int) (l : List (Option Int)) :
    l.filterMap (Option.map (fun n => n + k)) =
      (l.filterMap id).map (fun n => n + k) := by
  induction l with
  | nil => rfl
  | cons h t ih => cases h <;> simp [ih]

/-- `min?` commutes with adding a constant. -/
theorem min?_map_add (k : Int) (l : List Int) :
    (l.map (fun n => n + k)).min? = l.min?.map (fun n => n + k) := by
  cases l with
  | nil => rfl
  | cons a as =>
    show some ((as.map (fun n => n + k)).foldl min (a + k)) =
      some (as.foldl min a + k)
    congr 1
    induction as generalizing a with
    | nil => rfl
    | cons b bs ih => simpa [min_add_add_right] using ih (min a b)

/-- `nonNegScore` always yields an absent or non-negative value. -/
theorem scoreOk_nonNegScore (v : JsVal) : scoreOk (nonNegScore v) := by
  unfold nonNegScore
  cases toIntOrNull v with
  | none => exact Or.inl rfl
  | some n =>
    by_cases h : 0 ≤ n
    · exact Or.inr ⟨n, by simp [h], h⟩
    · exact Or.inl (by simp [h])

/-! ## C5 — score coercion -/

/-- C5: the string `"3"` and the number `3` both coerce to the integer
`3`; the empty string and `null` coerce to `null`; any string whose
trimmed form is not an optionally-signed digit string coerces to `null`
(the numeric `Option ℚ` codomain has no `NaN` and no string
concatenation). -/
theorem score_coercion_C5 :
    toIntOrNull (.jstr "3") = some 3 ∧
    toIntOrNull (.jnum 3) = some 3 ∧
    toIntOrNull (.jstr "") = none ∧
    toIntOrNull .jnull = none ∧
    (∀ s : String, isIntegerLit (jsTrim s) = false →
      toIntOrNull (.jstr s) = none) := by
  refine ⟨by decide, by decide, by decide, by decide, ?_⟩
  intro s h
  unfold toIntOrNull
  by_cases h1 : jsTrim s = "" <;> simp [h1, h]

/-- Witness for C5's universally quantified conjunct at `"goals"`. -/
theorem score_coercion_C5_witness :
    isIntegerLit (jsTrim "goals") = false ∧
    toIntOrNull (.jstr "goals") = none :=
  ⟨by decide, score_coercion_C5.2.2.2.2 "goals" (by decide)⟩

/-! ## C8 — round resolution -/

/-- C8 (counterexample): the claim says `roundToNumber` always returns a
positive integer or `null`, and that a zero round resolves to `null`; but
the source returns a finite *number* input unchanged before any
positivity check, so the number `0` resolves to `0`. -/
theorem roundToNumber_zero_C8_counterexample :
    ¬ (roundToNumber (.jnum 0) = none ∨
       ∃ n : ℚ, 0 < n ∧ roundToNumber (.jnum 0) = some n) := by
  rintro (h | ⟨n, hn, h⟩)
  · exact absurd h (by decide)
  · have h0 : roundToNumber (.jnum 0) = some 0 := rfl
    rw [h0] at h
    cases h
    exact lt_irrefl 0 hn

/-- C8 (amended): `roundToNumber` never fails; `null` and digitless
strings resolve to `null`; a string containing digits resolves to its
first digit run exactly when that run is positive, so a *string* input
always yields a positive integer or `null` — in particular `"-3"`
resolves to `3` (not to `null`) and `"0"` resolves to `null`; a finite
numeric input is returned unchanged, including `0`, negative, and
fractional numbers. -/
theorem roundToNumber_amended_C8 :
    (∀ s : String, roundToNumber (.jstr s) = none ∨
       ∃ n : ℕ, 0 < n ∧ roundToNumber (.jstr s) = some (n : ℚ)) ∧
    roundToNumber (.jstr "-3") = some 3 ∧
    roundToNumber (.jstr "0") = none ∧
    roundToNumber .jnull = none ∧
    (∀ q : ℚ, roundToNumber (.jnum q) = some q) := by
  refine ⟨?_, by decide, by decide, rfl, fun q => rfl⟩
  intro s
  unfold roundToNumber
  by_cases h1 : jsTrim s = ""
  · simp [h1]
  · simp only [h1, if_false]
    cases hr : firstDigitRun (jsTrim s) with
    | none => simp
    | some run =>
      by_cases hp : (0 : ℚ) < (digitsToNat run : ℚ)
      · refine Or.inr ⟨digitsToNat run, ?_, by simp [hp]⟩
        exact_mod_cast hp
      · simp [hp]

/-! ## C3 — round rectification -/

/-- C3: the rectifier of `scripts/fetch-data.js` (also the final shift
step of the other variant): when the minimum present round number over
the whole batch is exactly `0`, every present round number is increased
by exactly `1` and the new minimum is `1`; when the minimum is at least
`1`, or no round numbers are present, nothing changes. The decision is a
single global test on the batch minimum. -/
theorem roundRectifier_C3 (games : List (Option Int)) (cur : Option Int) :
    ((games.filterMap id).min? = some 0 →
      (normalizeRoundNumbersIfZeroBased games cur).1 =
        games.map (Option.map (fun n => n + 1)) ∧
      ((normalizeRoundNumbersIfZeroBased games cur).1.filterMap id).min? =
        some 1) ∧
    (∀ mv : Int, (games.filterMap id).min? = some mv → 1 ≤ mv →
      (normalizeRoundNumbersIfZeroBased games cur).1 = games) ∧
    ((games.filterMap id).min? = none →
      (normalizeRoundNumbersIfZeroBased games cur).1 = games) := by
  refine ⟨?_, ?_, ?_⟩
  · intro h
    have e1 : (normalizeRoundNumbersIfZeroBased games cur).1 =
        games.map (Option.map (fun n => n + 1)) := by
      simp [normalizeRoundNumbersIfZeroBased, h]
    refine ⟨e1, ?_⟩
    rw [e1, List.filterMap_map]
    have e2 : (id ∘ Option.map (fun n : Int => n + 1)) =
        Option.map (fun n : Int => n + 1) := rfl
    rw [e2, filterMap_optAdd, min?_map_add, h]
    rfl
  · intro mv h hge
    have hne : mv ≠ 0 := by omega
    simp [normalizeRoundNumbersIfZeroBased, h, hne]
  · intro h
    simp [normalizeRoundNumbersIfZeroBased, h]

/-- Witness for C3 at a zero-based batch and at a one-based batch. -/
theorem roundRectifier_C3_witness :
    (([some 0, some 2, none] : List (Option Int)).filterMap id).min? =
      some 0 ∧
    (normalizeRoundNumbersIfZeroBased [some 0, some 2, none] (some 5)).1 =
      [some 1, some 3, none] ∧
    (([some 1, some 2] : List (Option Int)).filterMap id).min? = some 1 ∧
    (normalizeRoundNumbersIfZeroBased [some 1, some 2] none).1 =
      [some 1, some 2] := by
  refine ⟨by decide, ?_, by decide, ?_⟩
  · exact ((roundRectifier_C3 [some 0, some 2, none] (some 5)).1
      (by decide)).1.trans (by decide)
  · exact (roundRectifier_C3 [some 1, some 2] none).2.1 1 (by decide)
      (by decide)

/-! ## C7 — score-pair invariant of the normalizer -/

/-- C7 (counterexample): the claim says every normalized record has `hs`
and `as` both null or both non-negative integers; but the mapper coerces
the two fields independently, so a raw record with `hs = 3` and
`as = null` normalizes to one set and one null score; and `toIntOrNull`
returns a finite number unchanged, so the fractional raw score `2.5`
normalizes to the fractional `hs = 5/2`, which equals no integer. -/
theorem normalizedScores_C7_counterexample :
    (¬ (((normalizeMatchA noParse rawA0).hs = none ∧
         (normalizeMatchA noParse rawA0).as = none) ∨
        ∃ h a : ℚ, (normalizeMatchA noParse rawA0).hs = some h ∧
          (normalizeMatchA noParse rawA0).as = some a ∧ 0 ≤ h ∧ 0 ≤ a)) ∧
    (normalizeMatchA noParse rawAq).hs = some (mkRat 5 2) ∧
    (∀ n : ℤ, (normalizeMatchA noParse rawAq).hs ≠ some (n : ℚ)) := by
  refine ⟨?_, by decide, ?_⟩
  · have h1 : (normalizeMatchA noParse rawA0).hs = some 3 := by decide
    have h2 : (normalizeMatchA noParse rawA0).as = none := by decide
    rintro (⟨ha, _⟩ | ⟨x, y, hx, hy, _, _⟩)
    · rw [h1] at ha; cases ha
    · rw [h2] at hy; cases hy
  · intro n h
    have h5 : (normalizeMatchA noParse rawAq).hs = some (mkRat 5 2) := by
      decide
    rw [h5] at h
    have hq := Option.some.inj h
    have hd : (mkRat 5 2).den = 2 := by decide
    rw [hq, Rat.den_intCast] at hd
    exact absurd hd (by decide)

/-- C7 (amended): for every raw record, in all three supported shapes,
each of `hs` and `as` is *independently* either null or a non-negative
number (never negative); the two fields are coerced separately, so one
may be null while the other is set, and a fractional numeric input is
kept as is, so the value need not be an integer. -/
theorem normalizedScores_amended_C7 (dp : String → Option String)
    (a : RawA) (b : RawB) (c : RawC) :
    scoreOk (normalizeMatchA dp a).hs ∧ scoreOk (normalizeMatchA dp a).as ∧
    scoreOk (normalizeMatchB dp b).hs ∧ scoreOk (normalizeMatchB dp b).as ∧
    scoreOk (normalizeMatchC dp c).hs ∧ scoreOk (normalizeMatchC dp c).as :=
  ⟨scoreOk_nonNegScore _, scoreOk_nonNegScore _, scoreOk_nonNegScore _,
   scoreOk_nonNegScore _, scoreOk_nonNegScore _, scoreOk_nonNegScore _⟩

/-! ## C9 — unparsable dates and times -/

/-- A made string equals `""` exactly when its character list is empty. -/
theorem mk_eq_empty_iff (l : List Char) : (String.mk l = "") ↔ l = [] := by
  rw [String.ext_iff]

/-- The `slice(0,10)` of a string of length at least ten is nonempty. -/
theorem take10_ne_empty (l : List Char) (h : 10 ≤ l.length) :
    l.take 10 ≠ [] := by
  rw [Ne, List.take_eq_nil_iff]
  rintro (h10 | hl)
  · omega
  · subst hl; simp at h

/-- The `slice(11,16)` of a string of length at least sixteen is
nonempty. -/
theorem drop11take5_ne_empty (l : List Char) (h : 16 ≤ l.length) :
    (l.drop 11).take 5 ≠ [] := by
  rw [Ne, List.take_eq_nil_iff]
  rintro (h5 | hl)
  · omega
  · have := congrArg List.length hl
    simp at this
    omega

/-- A concatenation is empty exactly when both halves are. -/
theorem append_eq_empty_iff (a b : String) :
    (a ++ b) = "" ↔ (a = "" ∧ b = "") := by
  constructor
  · intro h
    rw [String.ext_iff, String.data_append] at h
    rcases List.append_eq_nil.mp h with ⟨ha, hb⟩
    exact ⟨String.ext ha, String.ext hb⟩
  · rintro ⟨ha, hb⟩; rw [ha, hb]; rfl

/-- C9 (counterexample): the claim says unparsable dates and times
normalize to the empty string; but both normalizers end with `return s`,
handing the trimmed input back unchanged. `"hello"` matches no accepted
date format and is not parsed by the generic fallback (`new
Date("hello")` is an invalid date), yet normalizes to `"hello"`, not to
`""`; likewise `"zz"` for times. -/
theorem dateTime_unparsable_C9_counterexample :
    noParse "hello" = none ∧
    normalizeDateToISO noParse "hello" = "hello" ∧
    ("hello" : String) ≠ "" ∧
    normalizeTimeToHHMM "zz" = "zz" ∧
    ("zz" : String) ≠ "" :=
  ⟨rfl, by decide, by decide, by decide, by decide⟩

/-- C9 (amended): both normalizers are total functions; the result is the
empty string exactly when the trimmed input is empty, and an input that
matches none of the accepted formats and is not parsed by the generic
fallback is returned trimmed but otherwise unchanged (never an
exception, never coerced to `""`). The date direction assumes the host
parser returns genuine 24-character `toISOString()` renderings. -/
theorem dateTime_unparsable_amended_C9 (dp : String → Option String)
    (v : String) :
    ((∀ s r, dp s = some r → r.data.length = 24) →
      (normalizeDateToISO dp v = "" ↔ jsTrim v = "")) ∧
    (normalizeTimeToHHMM v = "" ↔ jsTrim v = "") ∧
    ((jsTrim v).data.contains 'T' = false →
      isIsoDateShape (jsTrim v) = false →
      ddmmyy24Parts (jsTrim v) = none →
      dp (jsTrim v) = none →
      normalizeDateToISO dp v = jsTrim v) ∧
    ((jsTrim v).data.contains 'T' = false →
      hhmmParts (jsTrim v) = none →
      normalizeTimeToHHMM v = jsTrim v) := by
  refine ⟨?_, ?_, ?_, ?_⟩
  · intro hdp
    unfold normalizeDateToISO
    by_cases hs : jsTrim v = ""
    · rw [if_pos hs]
      exact ⟨fun _ => hs, fun _ => rfl⟩
    · rw [if_neg hs]
      refine iff_of_false ?_ hs
      by_cases h1 : (jsTrim v).data.contains 'T' ∧ 10 ≤ (jsTrim v).length
      · rw [if_pos h1]
        intro hEq
        exact take10_ne_empty _ h1.2 ((mk_eq_empty_iff _).mp hEq)
      · rw [if_neg h1]
        by_cases h2 : isIsoDateShape (jsTrim v) = true
        · rw [if_pos h2]; exact hs
        · rw [if_neg h2]
          cases h3 : ddmmyy24Parts (jsTrim v) with
          | some parts =>
            obtain ⟨dd, mm, yy⟩ := parts
            simp only [h3]
            intro hEq
            simp [append_eq_empty_iff] at hEq
          | none =>
            simp only [h3]
            cases h4 : dp (jsTrim v) with
            | some iso =>
              simp only [h4]
              intro hEq
              exact take10_ne_empty _ (by rw [hdp _ _ h4]; omega)
                ((mk_eq_empty_iff _).mp hEq)
            | none => simp only [h4]; exact hs
  · unfold normalizeTimeToHHMM
    by_cases hs : jsTrim v = ""
    · rw [if_pos hs]
      exact ⟨fun _ => hs, fun _ => rfl⟩
    · rw [if_neg hs]
      refine iff_of_false ?_ hs
      by_cases h1 : (jsTrim v).data.contains 'T' ∧ 16 ≤ (jsTrim v).length
      · rw [if_pos h1]
        intro hEq
        exact drop11take5_ne_empty _ h1.2 ((mk_eq_empty_iff _).mp hEq)
      · rw [if_neg h1]
        cases h3 : hhmmParts (jsTrim v) with
        | some parts =>
          obtain ⟨hh, mm⟩ := parts
          simp only [h3]
          intro hEq
          simp [append_eq_empty_iff] at hEq
        | none => simp only [h3]; exact hs
  · intro hT hIso hDm hDp
    unfold normalizeDateToISO
    by_cases hs : jsTrim v = ""
    · rw [if_pos hs, hs]
    · have h1 : ¬((jsTrim v).data.contains 'T' ∧ 10 ≤ (jsTrim v).length) := by
        rintro ⟨hc, _⟩; rw [hT] at hc; cases hc
      have h2 : ¬ isIsoDateShape (jsTrim v) = true := by simp [hIso]
      rw [if_neg hs, if_neg h1, if_neg h2]
      simp only [hDm, hDp]
  · intro hT hHm
    unfold normalizeTimeToHHMM
    by_cases hs : jsTrim v = ""
    · rw [if_pos hs, hs]
    · have h1 : ¬((jsTrim v).data.contains 'T' ∧ 16 ≤ (jsTrim v).length) := by
        rintro ⟨hc, _⟩; rw [hT] at hc; cases hc
      rw [if_neg hs, if_neg h1]
      simp only [hHm]

/-- Witness for C9's amended statement at concrete inputs. -/
theorem dateTime_unparsable_amended_C9_witness :
    (normalizeDateToISO noParse " hello " = "" ↔ jsTrim " hello " = "") ∧
    (normalizeTimeToHHMM " hello " = "" ↔ jsTrim " hello " = "") ∧
    normalizeDateToISO noParse " hello " = jsTrim " hello " ∧
    normalizeTimeToHHMM " hello " = jsTrim " hello " := by
  have h := dateTime_unparsable_amended_C9 noParse " hello "
  exact ⟨h.1 (fun s r hr => by cases hr), h.2.1,
    h.2.2.1 (by decide) (by decide) (by decide) rfl,
    h.2.2.2 (by decide) (by decide)⟩

/-! ## C1 / C6 — identity collapse under deduplication -/

/-- `lexLt` is asymmetric. -/
theorem lexLt_asymm (a b : List Char) (hab : lexLt a b = true)
    (hba : lexLt b a = true) : False := by
  induction a generalizing b with
  | nil =>
    cases b with
    | nil => exact Bool.noConfusion hab
    | cons y ys => exact Bool.noConfusion hba
  | cons x xs ih =>
    cases b with
    | nil => exact Bool.noConfusion hab
    | cons y ys =>
      unfold lexLt at hab hba
      by_cases h1 : x.toNat < y.toNat
      · rw [if_neg (by omega : ¬ y.toNat < x.toNat),
          if_neg (by omega : ¬ y.toNat = x.toNat)] at hba
        exact Bool.noConfusion hba
      · by_cases h2 : x.toNat = y.toNat
        · rw [if_neg h1, if_pos h2] at hab
          rw [if_neg (by omega : ¬ y.toNat < x.toNat), if_pos h2.symm] at hba
          exact ih ys hab hba
        · rw [if_neg h1, if_neg h2] at hab
          exact Bool.noConfusion hab

/-- When `lexLt` holds in neither direction the lists are equal. -/
theorem lexLt_eq_of_not (a b : List Char) (hab : lexLt a b = false)
    (hba : lexLt b a = false) : a = b := by
  induction a generalizing b with
  | nil =>
    cases b with
    | nil => rfl
    | cons y ys => exact Bool.noConfusion hab
  | cons x xs ih =>
    cases b with
    | nil => exact Bool.noConfusion hba
    | cons y ys =>
      unfold lexLt at hab hba
      by_cases h1 : x.toNat < y.toNat
      · rw [if_pos h1] at hab
        exact Bool.noConfusion hab
      · by_cases h2 : y.toNat < x.toNat
        · rw [if_pos h2] at hba
          exact Bool.noConfusion hba
        · have h3 : x.toNat = y.toNat := by omega
          rw [if_neg h1, if_pos h3] at hab
          rw [if_neg h2, if_pos h3.symm] at hba
          have hxy : x = y := Char.ext (UInt32.ext h3)
          rw [hxy, ih ys hab hba]

/-- A `Bool` that is not `true` is `false`. -/
theorem bool_eq_false {b : Bool} (h : ¬ b = true) : b = false := by
  cases b
  · rfl
  · exact absurd rfl h

/-- The sorted filtered team pair is order-independent in its two
inputs (the home/away swap symmetry of the league-wide key). -/
theorem sortPair_comm (x y : String) :
    sortPairJs ([x, y].filter (fun s => s ≠ "")) =
      sortPairJs ([y, x].filter (fun s => s ≠ "")) := by
  by_cases hx : x = "" <;> by_cases hy : y = "" <;>
    simp [hx, hy, sortPairJs]
  simp only [strLtJs]
  by_cases h1 : lexLt y.data x.data = true
  · have h2 : lexLt x.data y.data = false := by
      cases h3 : lexLt x.data y.data
      · rfl
      · exact (lexLt_asymm _ _ h3 h1).elim
    simp [h1, h2]
  · have h1f : lexLt y.data x.data = false := bool_eq_false h1
    by_cases h2 : lexLt x.data y.data = true
    · simp [h1f, h2]
    · have h2f : lexLt x.data y.data = false := bool_eq_false h2
      have hd : x.data = y.data := lexLt_eq_of_not _ _ h2f h1f
      have hxy : x = y := String.ext hd
      simp [h1f, h2f, hxy]

/-- Two matches with equal identity keys collapse to the single pairwise
winner-merge. -/
theorem dedupe_pair_of_keyEq (env : Env) (m1 m2 : Match)
    (hk : matchNaturalKey env m2 = matchNaturalKey env m1) :
    dedupeMatches env [m1, m2] = [pairStep m1 m2] := by
  unfold dedupeMatches
  rw [List.foldl_cons, List.foldl_cons, List.foldl_nil]
  have e0 : dedupeStep env [] m1 = [(matchNaturalKey env m1, m1)] := by
    unfold dedupeStep lookupKey
    simp
  rw [e0]
  unfold dedupeStep
  rw [hk]
  simp [lookupKey, setKey]

/-- C1: two tracked-team records with the same (nonempty) normalized date
and the same canonicalized opponent — even with different resolved round
numbers and different raw identifiers — get the same identity key and are
collapsed by deduplication into exactly one output match; when exactly
one of the two carries a score pair, the merged match carries that score
pair. -/
theorem trackedTeam_collapse_C1 (env : Env) (m1 m2 : Match)
    (hours1 : isOursMatch env m1 = true)
    (hours2 : isOursMatch env m2 = true)
    (hdate : normDateKey m1.date = normDateKey m2.date)
    (hdne : normDateKey m1.date ≠ "")
    (hopp : canonicalTeamKey env (opponentOf env m1) =
            canonicalTeamKey env (opponentOf env m2))
    (hround : roundOfMatch m1 ≠ roundOfMatch m2)
    (hid : m1.id ≠ m2.id) :
    matchNaturalKey env m1 = matchNaturalKey env m2 ∧
    ∃ m, dedupeMatches env [m1, m2] = [m] ∧
      (hasScore m1 = true → hasScore m2 = false →
        m.hs = m1.hs ∧ m.as = m1.as) ∧
      (hasScore m2 = true → hasScore m1 = false →
        m.hs = m2.hs ∧ m.as = m2.as) := by
  have hdne2 : normDateKey m2.date ≠ "" := by rw [← hdate]; exact hdne
  have k1 : matchNaturalKey env m1 =
      joinBar ["MY", normDateKey m1.date,
               canonicalTeamKey env (opponentOf env m1)] := by
    unfold matchNaturalKey
    rw [if_pos hours1, if_pos hdne]
  have k2 : matchNaturalKey env m2 =
      joinBar ["MY", normDateKey m2.date,
               canonicalTeamKey env (opponentOf env m2)] := by
    unfold matchNaturalKey
    rw [if_pos hours2, if_pos hdne2]
  have hkeys : matchNaturalKey env m1 = matchNaturalKey env m2 := by
    rw [k1, k2, hdate, hopp]
  refine ⟨hkeys, pairStep m1 m2, dedupe_pair_of_keyEq env m1 m2 hkeys.symm,
    ?_, ?_⟩
  · intro h1 h2
    have hc : chooseBetterFirst m1 m2 = true := by
      unfold chooseBetterFirst
      rw [if_pos (by rw [h1, h2]; decide)]
      exact h1
    have hp : pairStep m1 m2 = mergeMatchFields m1 m2 := by
      unfold pairStep
      rw [hc]
      simp
    have hno : ¬(m1.hs = none ∧ m1.as = none ∧ m2.hs ≠ none ∧
        m2.as ≠ none) := by
      rintro ⟨hh, _, _, _⟩
      unfold hasScore at h1
      rw [hh] at h1
      simp at h1
    rw [hp]
    constructor <;> simp [mergeMatchFields, hno]
  · intro h2 h1
    have hc : chooseBetterFirst m1 m2 = false := by
      unfold chooseBetterFirst
      rw [if_pos (by rw [h1, h2]; decide)]
      exact h1
    have hp : pairStep m1 m2 = mergeMatchFields m2 m1 := by
      unfold pairStep
      rw [hc]
      simp
    have hno : ¬(m2.hs = none ∧ m2.as = none ∧ m1.hs ≠ none ∧
        m1.as ≠ none) := by
      rintro ⟨hh, _, _, _⟩
      unfold hasScore at h2
      rw [hh] at h2
      simp at h2
    rw [hp]
    constructor <;> simp [mergeMatchFields, hno]

/-- Witness for C1 at two concrete tracked-team records. -/
theorem trackedTeam_collapse_C1_witness :
    isOursMatch envW w1 = true ∧ roundOfMatch w1 ≠ roundOfMatch w2 ∧
    ∃ m, dedupeMatches envW [w1, w2] = [m] ∧
      (hasScore w1 = true → hasScore w2 = false →
        m.hs = w1.hs ∧ m.as = w1.as) ∧
      (hasScore w2 = true → hasScore w1 = false →
        m.hs = w2.hs ∧ m.as = w2.as) := by
  refine ⟨by decide, by decide, ?_⟩
  exact (trackedTeam_collapse_C1 envW w1 w2 (by decide) (by decide)
    (by decide) (by decide) (by decide) (by decide) (by decide)).2

/-- C6: two league (non-tracked-team) records with the same (nonempty)
normalized date, the same real (non-unscheduled) normalized time, and the
same two canonicalized teams with home and away swapped get the same
identity key and are collapsed by deduplication into one output match. -/
theorem leagueSwap_collapse_C6 (env : Env) (m1 m2 : Match)
    (h1h : isMyTeam env m1.home = false) (h1a : isMyTeam env m1.away = false)
    (h2h : isMyTeam env m2.home = false) (h2a : isMyTeam env m2.away = false)
    (hdate : normDateKey m1.date = normDateKey m2.date)
    (hdne : normDateKey m1.date ≠ "")
    (htime : normTimeKey m1.time = normTimeKey m2.time)
    (htne : normTimeKey m1.time ≠ "")
    (ht00 : normTimeKey m1.time ≠ "00:00")
    (hswap1 : canonicalTeamKey env m1.home = canonicalTeamKey env m2.away)
    (hswap2 : canonicalTeamKey env m1.away = canonicalTeamKey env m2.home) :
    matchNaturalKey env m1 = matchNaturalKey env m2 ∧
    ∃ m, dedupeMatches env [m1, m2] = [m] := by
  have o1 : isOursMatch env m1 = false := by
    unfold isOursMatch
    rw [h1h, h1a]
    rfl
  have o2 : isOursMatch env m2 = false := by
    unfold isOursMatch
    rw [h2h, h2a]
    rfl
  have htne2 : normTimeKey m2.time ≠ "" := by rw [← htime]; exact htne
  have ht002 : normTimeKey m2.time ≠ "00:00" := by rw [← htime]; exact ht00
  have hdne2 : normDateKey m2.date ≠ "" := by rw [← hdate]; exact hdne
  have k1 : matchNaturalKey env m1 =
      joinBar [normDateKey m1.date, normTimeKey m1.time,
        (sortPairJs ([canonicalTeamKey env m1.home,
          canonicalTeamKey env m1.away].filter (fun x => x ≠ ""))).1,
        (sortPairJs ([canonicalTeamKey env m1.home,
          canonicalTeamKey env m1.away].filter (fun x => x ≠ ""))).2] := by
    unfold matchNaturalKey
    rw [if_neg (by rw [o1]; exact Bool.false_ne_true)]
    rw [if_pos (show normTimeKey m1.time ≠ "" ∧ normTimeKey m1.time ≠ "00:00"
      from ⟨htne, ht00⟩)]
    rw [if_pos (show normDateKey m1.date ≠ "" ∧ normTimeKey m1.time ≠ ""
      from ⟨hdne, htne⟩)]
  have k2 : matchNaturalKey env m2 =
      joinBar [normDateKey m2.date, normTimeKey m2.time,
        (sortPairJs ([canonicalTeamKey env m2.home,
          canonicalTeamKey env m2.away].filter (fun x => x ≠ ""))).1,
        (sortPairJs ([canonicalTeamKey env m2.home,
          canonicalTeamKey env m2.away].filter (fun x => x ≠ ""))).2] := by
    unfold matchNaturalKey
    rw [if_neg (by rw [o2]; exact Bool.false_ne_true)]
    rw [if_pos (show normTimeKey m2.time ≠ "" ∧ normTimeKey m2.time ≠ "00:00"
      from ⟨htne2, ht002⟩)]
    rw [if_pos (show normDateKey m2.date ≠ "" ∧ normTimeKey m2.time ≠ ""
      from ⟨hdne2, htne2⟩)]
  have hpair : sortPairJs ([canonicalTeamKey env m1.home,
      canonicalTeamKey env m1.away].filter (fun x => x ≠ "")) =
      sortPairJs ([canonicalTeamKey env m2.home,
        canonicalTeamKey env m2.away].filter (fun x => x ≠ "")) := by
    rw [hswap1, hswap2]
    exact sortPair_comm _ _
  have hkeys : matchNaturalKey env m1 = matchNaturalKey env m2 := by
    rw [k1, k2, hdate, htime, hpair]
  exact ⟨hkeys, pairStep m1 m2, dedupe_pair_of_keyEq env m1 m2 hkeys.symm⟩

/-- Witness for C6 at two concrete league records with swapped teams. -/
theorem leagueSwap_collapse_C6_witness :
    isMyTeam envW w3.home = false ∧
    canonicalTeamKey envW w3.home = canonicalTeamKey envW w4.away ∧
    matchNaturalKey envW w3 = matchNaturalKey envW w4 ∧
    ∃ m, dedupeMatches envW [w3, w4] = [m] := by
  refine ⟨by decide, by decide, ?_⟩
  exact leagueSwap_collapse_C6 envW w3 w4 (by decide) (by decide)
    (by decide) (by decide) (by decide) (by decide) (by decide)
    (by decide) (by decide) (by decide) (by decide)

/-! ## C10 — deduplication refines its group-by specification -/

/-- Membership in the `firstKeys` fold. -/
theorem mem_firstKeys_aux (ks : List String) (acc : List String) (k : String) :
    (k ∈ ks.foldl (fun acc k =>
        if acc.any (fun x => decide (x = k)) then acc else acc ++ [k]) acc) ↔
      k ∈ acc ∨ k ∈ ks := by
  induction ks generalizing acc with
  | nil => simp
  | cons k0 ks ih =>
    rw [List.foldl_cons, ih]
    by_cases h : acc.any (fun x => decide (x = k0))
    · rw [if_pos h]
      have hk0 : k0 ∈ acc := by
        rcases List.any_eq_true.mp h with ⟨x, hx, hd⟩
        rwa [of_decide_eq_true hd] at hx
      constructor
      · rintro (h1 | h3)
        · exact Or.inl h1
        · exact Or.inr (List.mem_cons_of_mem _ h3)
      · rintro (h1 | h2)
        · exact Or.inl h1
        · rcases List.mem_cons.mp h2 with rfl | h3
          · exact Or.inl hk0
          · exact Or.inr h3
    · rw [if_neg h]
      constructor
      · rintro (h1 | h3)
        · rcases List.mem_append.mp h1 with h1 | h1
          · exact Or.inl h1
          · simp at h1
            exact Or.inr (by simp [h1])
        · exact Or.inr (List.mem_cons_of_mem _ h3)
      · rintro (h1 | h2)
        · exact Or.inl (List.mem_append_left _ h1)
        · rcases List.mem_cons.mp h2 with rfl | h3
          · exact Or.inl (List.mem_append_right _ (by simp))
          · exact Or.inr h3

/-- A key occurs among `firstKeys ks` exactly when it occurs in `ks`. -/
theorem mem_firstKeys (ks : List String) (k : String) :
    k ∈ firstKeys ks ↔ k ∈ ks := by
  unfold firstKeys
  rw [mem_firstKeys_aux]
  simp

/-- `firstKeys` of one more key appended. -/
theorem firstKeys_concat (ks : List String) (k : String) :
    firstKeys (ks ++ [k]) =
      if (firstKeys ks).any (fun x => decide (x = k)) then firstKeys ks
      else firstKeys ks ++ [k] := by
  unfold firstKeys
  rw [List.foldl_append]
  rfl

/-- The `firstKeys` fold keeps a duplicate-free accumulator. -/
theorem firstKeys_nodup_aux (ks : List String) (acc : List String)
    (h : acc.Nodup) :
    (ks.foldl (fun acc k =>
      if acc.any (fun x => decide (x = k)) then acc else acc ++ [k])
      acc).Nodup := by
  induction ks generalizing acc with
  | nil => exact h
  | cons k0 ks ih =>
    rw [List.foldl_cons]
    by_cases hh : acc.any (fun x => decide (x = k0))
    · rw [if_pos hh]
      exact ih acc h
    · rw [if_neg hh]
      refine ih _ ?_
      have hk0 : k0 ∉ acc := by
        intro hmem
        exact hh (List.any_eq_true.mpr ⟨k0, hmem, by simp⟩)
      simp [List.nodup_append, h, hk0]

/-- `firstKeys` always produces a duplicate-free list. -/
theorem firstKeys_nodup (ks : List String) : (firstKeys ks).Nodup :=
  firstKeys_nodup_aux ks [] List.nodup_nil

/-- `firstKeys` is the identity on duplicate-free lists. -/
theorem firstKeys_eq_self_of_nodup (ks : List String) (h : ks.Nodup) :
    firstKeys ks = ks := by
  induction ks using List.reverseRecOn with
  | nil => rfl
  | append_singleton ks k ih =>
    have hparts : ks.Nodup ∧ k ∉ ks := by
      rw [List.nodup_append] at h
      refine ⟨h.1, fun hm => ?_⟩
      exact h.2.2 hm (by simp)
    rw [firstKeys_concat, ih hparts.1,
      if_neg (by
        intro hany
        rcases List.any_eq_true.mp hany with ⟨x, hx, hd⟩
        rw [of_decide_eq_true hd] at hx
        exact hparts.2 hx)]

/-- `find?` on a keyed map: the first (and only possible) hit is the
entry built from the searched key. -/
theorem find?_keyedMap (g : String → Match) (ks : List String) (k : String) :
    List.find? (fun p => decide (p.1 = k))
        (ks.map (fun x => (x, g x))) =
      if k ∈ ks then some (k, g k) else none := by
  induction ks with
  | nil => simp
  | cons k0 ks ih =>
    by_cases h : k0 = k
    · subst h
      simp [List.find?_cons]
    · simp [List.find?_cons, h, ih, Ne.symm h]

/-- Appending a record of a different key leaves a group's merged
representative unchanged. -/
theorem specEntry_append_ne (env : Env) (l : List Match) (m : Match)
    (k : String) (h : matchNaturalKey env m ≠ k) :
    specEntry env (l ++ [m]) k = specEntry env l k := by
  unfold specEntry
  rw [List.filter_append]
  simp [h]

/-- Appending a record of the key of a nonempty group folds it into the
group's representative with one more `pairStep`. -/
theorem specEntry_append_hit (env : Env) (l : List Match) (m : Match)
    (k : String) (hk : matchNaturalKey env m = k)
    (hne : l.filter (fun x => decide (matchNaturalKey env x = k)) ≠ []) :
    specEntry env (l ++ [m]) k = pairStep (specEntry env l k) m := by
  unfold specEntry
  rw [List.filter_append]
  have hFm : List.filter (fun x => decide (matchNaturalKey env x = k)) [m] =
      [m] := by
    simp [hk]
  rw [hFm]
  cases hf : l.filter (fun x => decide (matchNaturalKey env x = k)) with
  | nil => exact absurd hf hne
  | cons m0 rest =>
    show mergeGroup m0 (rest ++ [m]) = pairStep (mergeGroup m0 rest) m
    unfold mergeGroup
    rw [List.foldl_append]
    rfl

set_option maxHeartbeats 1000000 in
/-- The state of `dedupeMatches`' fold after consuming `l`: one entry per
distinct key in first-occurrence order, holding that key's merged
representative. -/
theorem foldl_dedupeStep_eq (env : Env) (l : List Match) :
    l.foldl (dedupeStep env) [] =
      (firstKeys (l.map (matchNaturalKey env))).map
        (fun k => (k, specEntry env l k)) := by
  induction l using List.reverseRecOn with
  | nil => rfl
  | append_singleton l m ih =>
    rw [List.foldl_append, List.foldl_cons, List.foldl_nil, ih,
      List.map_append, List.map_cons, List.map_nil, firstKeys_concat]
    by_cases hit : (firstKeys (l.map (matchNaturalKey env))).any
        (fun x => decide (x = matchNaturalKey env m))
    · rw [if_pos hit]
      have hmem : matchNaturalKey env m ∈
          firstKeys (l.map (matchNaturalKey env)) := by
        rcases List.any_eq_true.mp hit with ⟨x, hx, hd⟩
        rwa [← of_decide_eq_true hd]
      have hne : l.filter (fun x =>
          decide (matchNaturalKey env x = matchNaturalKey env m)) ≠ [] := by
        rw [mem_firstKeys] at hmem
        rcases List.mem_map.mp hmem with ⟨m', hm', hkey⟩
        exact List.ne_nil_of_mem
          (List.mem_filter.mpr ⟨hm', by simp [hkey]⟩)
      unfold dedupeStep
      have hl : lookupKey ((firstKeys (l.map (matchNaturalKey env))).map
          (fun k => (k, specEntry env l k))) (matchNaturalKey env m) =
          some (specEntry env l (matchNaturalKey env m)) := by
        unfold lookupKey
        rw [find?_keyedMap, if_pos hmem]
      simp only [hl]
      unfold setKey
      rw [List.map_map]
      apply List.map_congr_left
      intro k hk
      simp only [Function.comp_apply]
      by_cases he : k = matchNaturalKey env m
      · subst he
        rw [if_pos rfl,
          specEntry_append_hit env l m _ rfl hne]
      · rw [if_neg he,
          specEntry_append_ne env l m k (fun hh => he hh.symm)]
    · rw [if_neg hit]
      have hnotmem : matchNaturalKey env m ∉
          firstKeys (l.map (matchNaturalKey env)) := by
        intro hm
        exact absurd (List.any_eq_true.mpr ⟨_, hm, by simp⟩) hit
      unfold dedupeStep
      have hl : lookupKey ((firstKeys (l.map (matchNaturalKey env))).map
          (fun k => (k, specEntry env l k))) (matchNaturalKey env m) =
          none := by
        unfold lookupKey
        rw [find?_keyedMap, if_neg hnotmem]
      simp only [hl]
      rw [List.map_append]
      congr 1
      · apply List.map_congr_left
        intro k hk
        rw [specEntry_append_ne env l m k (fun he => hnotmem (he ▸ hk))]
      · have hfilter : l.filter (fun x =>
            decide (matchNaturalKey env x = matchNaturalKey env m)) = [] := by
          rw [List.filter_eq_nil_iff]
          intro a ha hd
          apply hnotmem
          rw [mem_firstKeys]
          exact of_decide_eq_true hd ▸ List.mem_map_of_mem _ ha
        have hsp : specEntry env (l ++ [m]) (matchNaturalKey env m) = m := by
          unfold specEntry
          rw [List.filter_append, hfilter]
          simp [mergeGroup]
        simp [hsp]

/-- C10: `dedupeMatches` is a pure function of its input (determinism is
immediate in this embedding, which fixes the JavaScript `Map`'s
insertion-order iteration), and it equals the group-by description: one
merged match per distinct identity key of the input, in first-occurrence
order of the keys, each obtained by folding the collision step over its
group. -/
theorem dedupe_eq_groupMerge_C10 (env : Env) (l : List Match) :
    dedupeMatches env l = dedupeMatchesSpec env l := by
  unfold dedupeMatches dedupeMatchesSpec
  rw [foldl_dedupeStep_eq, List.map_map]
  rfl

/-! ## C2 — dedupe idempotence: well-formedness machinery -/

/-- A decimal digit is not the `'|'` separator. -/
theorem digit_ne_bar {c : Char} (h : c.isDigit = true) : c ≠ '|' := by
  intro he
  subst he
  exact absurd h (by decide)

theorem iso_len_noBar (s : String) (h : isIsoDateShape s = true) :
    s.data.length = 10 ∧ noBar s := by
  unfold isIsoDateShape at h
  split at h
  next y1 y2 y3 y4 hh1 m1 m2 hh2 d1 d2 heq =>
    simp only [Bool.and_eq_true, decide_eq_true_eq] at h
    obtain ⟨⟨⟨⟨⟨⟨⟨⟨⟨hy1, hy2⟩, hy3⟩, hy4⟩, hh1e⟩, hm1⟩, hm2⟩, hh2e⟩, hd1⟩, hd2⟩ := h
    refine ⟨by rw [heq]; rfl, ?_⟩
    unfold noBar
    rw [heq]
    intro hm
    simp only [List.mem_cons, List.not_mem_nil, or_false] at hm
    rcases hm with rfl | rfl | rfl | rfl | rfl | rfl | rfl | rfl | rfl | rfl
    · exact digit_ne_bar hy1 rfl
    · exact digit_ne_bar hy2 rfl
    · exact digit_ne_bar hy3 rfl
    · exact digit_ne_bar hy4 rfl
    · exact absurd hh1e (by decide)
    · exact digit_ne_bar hm1 rfl
    · exact digit_ne_bar hm2 rfl
    · exact absurd hh2e (by decide)
    · exact digit_ne_bar hd1 rfl
    · exact digit_ne_bar hd2 rfl
  next => exact Bool.noConfusion h

theorem not_white_of_digit {c : Char} (h : c.isDigit = true) :
    jsWhite c = false := by
  simp [Char.isDigit] at h
  have h1 : 48 ≤ c.toNat := h.1
  have h2 : c.toNat ≤ 57 := h.2
  simp only [jsWhite, Bool.or_eq_false_iff, decide_eq_false_iff_not,
    Bool.and_eq_false_iff, decide_eq_true_eq, not_le]
  omega

theorem hhmm_facts (s : String) (h : isHhmmShape s = true) :
    s.data.length = 5 ∧ noBar s ∧ (∀ c ∈ s.data, jsWhite c = false) := by
  unfold isHhmmShape at h
  split at h
  next h1 h2 cc m1 m2 heq =>
    simp only [Bool.and_eq_true, decide_eq_true_eq] at h
    obtain ⟨⟨⟨⟨hh1, hh2⟩, hcc⟩, hm1⟩, hm2⟩ := h
    subst hcc
    refine ⟨by rw [heq]; rfl, ?_, ?_⟩
    · unfold noBar
      rw [heq]
      intro hm
      simp only [List.mem_cons, List.not_mem_nil, or_false] at hm
      rcases hm with rfl | rfl | hcol | rfl | rfl
      · exact digit_ne_bar hh1 rfl
      · exact digit_ne_bar hh2 rfl
      · exact absurd hcol (by decide)
      · exact digit_ne_bar hm1 rfl
      · exact digit_ne_bar hm2 rfl
    · rw [heq]
      intro c hc
      simp only [List.mem_cons, List.not_mem_nil, or_false] at hc
      rcases hc with rfl | rfl | rfl | rfl | rfl
      · exact not_white_of_digit hh1
      · exact not_white_of_digit hh2
      · decide
      · exact not_white_of_digit hm1
      · exact not_white_of_digit hm2
  next => exact Bool.noConfusion h

theorem dropWhile_eq_self_of_not {l : List Char}
    (h : ∀ c ∈ l, jsWhite c = false) : l.dropWhile jsWhite = l := by
  cases l with
  | nil => rfl
  | cons c cs =>
    rw [List.dropWhile_cons, h c (by simp)]
    simp

theorem jsTrim_eq_self_of_not {s : String}
    (h : ∀ c ∈ s.data, jsWhite c = false) : jsTrim s = s := by
  unfold jsTrim
  rw [dropWhile_eq_self_of_not h,
    dropWhile_eq_self_of_not (by intro c hc; exact h c (by simpa using hc)),
    List.reverse_reverse]

theorem normTimeKey_hhmm (s : String) (h : isHhmmShape s = true) :
    normTimeKey s = s := by
  obtain ⟨hlen, _, hnw⟩ := hhmm_facts s h
  unfold normTimeKey
  rw [jsTrim_eq_self_of_not hnw]
  have hne : s ≠ "" := by
    intro he
    rw [he] at hlen
    exact absurd hlen (by decide)
  rw [if_neg hne]
  have hl5 : 5 ≤ s.length := by
    show 5 ≤ s.data.length
    omega
  rw [if_pos hl5]
  have : s.data.take 5 = s.data := by
    rw [← hlen]
    exact List.take_length s.data
  rw [this]

/-- Splitting a char list at an occurrence of the separator is
unambiguous when neither prefix contains it. -/
theorem barSplit (xs ys : List Char) :
    ∀ (as bs : List Char), '|' ∉ as → '|' ∉ bs →
      as ++ '|' :: xs = bs ++ '|' :: ys → as = bs ∧ xs = ys := by
  intro as
  induction as with
  | nil =>
    intro bs ha hb h
    cases bs with
    | nil => simpa using h
    | cons b bs2 =>
      simp only [List.nil_append, List.cons_append, List.cons.injEq] at h
      exact absurd (by rw [h.1]; exact List.mem_cons_self _ _) hb
  | cons a as2 ih =>
    intro bs ha hb h
    cases bs with
    | nil =>
      simp only [List.nil_append, List.cons_append, List.cons.injEq] at h
      exact absurd (by rw [← h.1]; exact List.mem_cons_self _ _) ha
    | cons b bs2 =>
      simp only [List.cons_append, List.cons.injEq] at h
      obtain ⟨h1, h2⟩ := h
      have ha2 : '|' ∉ as2 := fun hm => ha (List.mem_cons_of_mem _ hm)
      have hb2 : '|' ∉ bs2 := fun hm => hb (List.mem_cons_of_mem _ hm)
      obtain ⟨e1, e2⟩ := ih bs2 ha2 hb2 h2
      exact ⟨by rw [h1, e1], e2⟩

theorem strBarSplit (a b x y : String) (ha : noBar a) (hb : noBar b)
    (h : a ++ "|" ++ x = b ++ "|" ++ y) : a = b ∧ x = y := by
  rw [String.ext_iff] at h
  simp only [String.data_append] at h
  have hd : a.data ++ '|' :: x.data = b.data ++ '|' :: y.data := by
    simpa [List.append_assoc] using h
  obtain ⟨h1, h2⟩ := barSplit x.data y.data a.data b.data ha hb hd
  exact ⟨String.ext h1, String.ext h2⟩

theorem joinBar3 (a b c : String) :
    joinBar [a, b, c] = a ++ "|" ++ (b ++ "|" ++ c) := rfl

theorem joinBar4 (a b c d : String) :
    joinBar [a, b, c, d] = a ++ "|" ++ (b ++ "|" ++ (c ++ "|" ++ d)) := rfl

theorem join3_inj {a1 b1 c1 a2 b2 c2 : String}
    (ha1 : noBar a1) (ha2 : noBar a2) (hb1 : noBar b1) (hb2 : noBar b2)
    (h : joinBar [a1, b1, c1] = joinBar [a2, b2, c2]) :
    a1 = a2 ∧ b1 = b2 ∧ c1 = c2 := by
  rw [joinBar3, joinBar3] at h
  obtain ⟨e1, e2⟩ := strBarSplit _ _ _ _ ha1 ha2 h
  obtain ⟨e3, e4⟩ := strBarSplit _ _ _ _ hb1 hb2 e2
  exact ⟨e1, e3, e4⟩

theorem join3_ne_join4 {a1 b1 c1 a2 b2 c2 d2 : String}
    (ha1 : noBar a1) (ha2 : noBar a2) (hb1 : noBar b1) (hb2 : noBar b2)
    (hc1 : noBar c1)
    (h : joinBar [a1, b1, c1] = joinBar [a2, b2, c2, d2]) : False := by
  rw [joinBar3, joinBar4] at h
  obtain ⟨e1, e2⟩ := strBarSplit _ _ _ _ ha1 ha2 h
  obtain ⟨e3, e4⟩ := strBarSplit _ _ _ _ hb1 hb2 e2
  apply hc1
  rw [e4]
  simp [noBar, String.data_append]

theorem merge_home {w l : Match} (h : w.home ≠ "") :
    (mergeMatchFields w l).home = w.home := by
  unfold mergeMatchFields
  simp [h]

theorem merge_away {w l : Match} (h : w.away ≠ "") :
    (mergeMatchFields w l).away = w.away := by
  unfold mergeMatchFields
  simp [h]

theorem merge_date {w l : Match} (h : w.date ≠ "") :
    (mergeMatchFields w l).date = w.date := by
  unfold mergeMatchFields
  simp [h]

theorem merge_time (w l : Match) :
    (mergeMatchFields w l).time =
      if (w.time = "" ∨ w.time = "00:00") ∧ l.time ≠ "" ∧ l.time ≠ "00:00"
      then l.time else w.time := rfl

theorem key_ours (env : Env) (m : Match) (ho : isOursMatch env m = true)
    (hd : normDateKey m.date ≠ "") :
    matchNaturalKey env m =
      joinBar ["MY", normDateKey m.date,
        canonicalTeamKey env (opponentOf env m)] := by
  unfold matchNaturalKey
  rw [if_pos ho, if_pos hd]

theorem key_league_time (env : Env) (m : Match)
    (ho : isOursMatch env m = false) (hd : normDateKey m.date ≠ "")
    (ht : timePartOf m ≠ "") :
    matchNaturalKey env m =
      joinBar [normDateKey m.date, timePartOf m,
        (sortPairJs ([canonicalTeamKey env m.home,
          canonicalTeamKey env m.away].filter (fun x => x ≠ ""))).1,
        (sortPairJs ([canonicalTeamKey env m.home,
          canonicalTeamKey env m.away].filter (fun x => x ≠ ""))).2] := by
  unfold matchNaturalKey
  rw [if_neg (by rw [ho]; exact Bool.false_ne_true)]
  rw [show (if normTimeKey m.time ≠ "" ∧ normTimeKey m.time ≠ "00:00"
      then normTimeKey m.time else "") = timePartOf m from rfl]
  rw [if_pos ⟨hd, ht⟩]

theorem key_league_notime (env : Env) (m : Match)
    (ho : isOursMatch env m = false) (hd : normDateKey m.date ≠ "")
    (ht : timePartOf m = "") :
    matchNaturalKey env m =
      joinBar [normDateKey m.date,
        (sortPairJs ([canonicalTeamKey env m.home,
          canonicalTeamKey env m.away].filter (fun x => x ≠ ""))).1,
        (sortPairJs ([canonicalTeamKey env m.home,
          canonicalTeamKey env m.away].filter (fun x => x ≠ ""))).2] := by
  unfold matchNaturalKey
  rw [if_neg (by rw [ho]; exact Bool.false_ne_true)]
  rw [show (if normTimeKey m.time ≠ "" ∧ normTimeKey m.time ≠ "00:00"
      then normTimeKey m.time else "") = timePartOf m from rfl]
  rw [if_neg (by rw [ht]; rintro ⟨_, hc⟩; exact hc rfl)]
  rw [if_pos hd]

theorem sortPair_mem (x y : String) :
    ((sortPairJs ([x, y].filter (fun s => s ≠ ""))).1 = x ∨
     (sortPairJs ([x, y].filter (fun s => s ≠ ""))).1 = y ∨
     (sortPairJs ([x, y].filter (fun s => s ≠ ""))).1 = "") ∧
    ((sortPairJs ([x, y].filter (fun s => s ≠ ""))).2 = x ∨
     (sortPairJs ([x, y].filter (fun s => s ≠ ""))).2 = y ∨
     (sortPairJs ([x, y].filter (fun s => s ≠ ""))).2 = "") := by
  by_cases hx : x = "" <;> by_cases hy : y = "" <;>
    simp [hx, hy, sortPairJs] <;>
    by_cases hlt : strLtJs y x <;> simp [hlt] <;> tauto

/-- The empty string has no separator. -/
theorem noBar_empty : noBar "" := by decide

theorem noBar_MY : noBar "MY" := by decide

theorem timePartOf_of_wf {m : Match} (hw : wfTime m.time) :
    (timePartOf m = "" ∧ (m.time = "" ∨ m.time = "00:00")) ∨
    (timePartOf m = m.time ∧ m.time ≠ "" ∧ m.time ≠ "00:00") := by
  rcases hw with h | h | h
  · refine Or.inl ⟨?_, Or.inl h⟩
    unfold timePartOf
    rw [h]
    decide
  · refine Or.inl ⟨?_, Or.inr h⟩
    unfold timePartOf
    rw [h]
    decide
  · by_cases h0 : m.time = "00:00"
    · refine Or.inl ⟨?_, Or.inr h0⟩
      unfold timePartOf
      rw [h0]
      decide
    · have hk := normTimeKey_hhmm _ h
      have hlen := (hhmm_facts _ h).1
      have hne : m.time ≠ "" := by
        intro he
        rw [he] at hlen
        exact absurd hlen (by decide)
      refine Or.inr ⟨?_, hne, h0⟩
      unfold timePartOf
      rw [hk, if_pos ⟨hne, h0⟩]

theorem isoKey_ne_empty {s : String} (h : isIsoDateShape s = true) :
    s ≠ "" := by
  intro he
  rw [he] at h
  exact absurd h (by decide)

theorem wfDate_ne {env : Env} {m : Match} (hw : wfMatch env m) :
    normDateKey m.date ≠ "" ∧ m.date ≠ "" := by
  refine ⟨isoKey_ne_empty hw.1, ?_⟩
  intro he
  have := hw.1
  rw [he] at this
  exact absurd this (by decide)

theorem wf_merge {env : Env} {w l : Match} (hw : wfMatch env w)
    (hl : wfMatch env l) : wfMatch env (mergeMatchFields w l) := by
  obtain ⟨hwd, hwt, hwh, hwa, hwn1, hwn2⟩ := hw
  have hwm : wfMatch env w := ⟨hwd, hwt, hwh, hwa, hwn1, hwn2⟩
  have hwdate : w.date ≠ "" := (wfDate_ne hwm).2
  refine ⟨?_, ?_, ?_, ?_, ?_, ?_⟩
  · rw [merge_date hwdate]
    exact hwd
  · rw [merge_time]
    by_cases hc : (w.time = "" ∨ w.time = "00:00") ∧
        l.time ≠ "" ∧ l.time ≠ "00:00"
    · rw [if_pos hc]
      exact hl.2.1
    · rw [if_neg hc]
      exact hwt
  · rw [merge_home hwh]
    exact hwh
  · rw [merge_away hwa]
    exact hwa
  · rw [merge_home hwh]
    exact hwn1
  · rw [merge_away hwa]
    exact hwn2

theorem key_merge_stable {env : Env} {w l : Match} (hw : wfMatch env w)
    (hl : wfMatch env l)
    (hk : matchNaturalKey env w = matchNaturalKey env l) :
    matchNaturalKey env (mergeMatchFields w l) = matchNaturalKey env w := by
  obtain ⟨hwd, hwt, hwh, hwa, hwn1, hwn2⟩ := hw
  obtain ⟨hld, hlt, hlh, hla, hln1, hln2⟩ := hl
  have hdW : normDateKey w.date ≠ "" := isoKey_ne_empty hwd
  have hdL : normDateKey l.date ≠ "" := isoKey_ne_empty hld
  have hwdate : w.date ≠ "" := by
    intro he
    rw [he] at hwd
    exact absurd hwd (by decide)
  have hMhome : (mergeMatchFields w l).home = w.home := merge_home hwh
  have hMaway : (mergeMatchFields w l).away = w.away := merge_away hwa
  have hMdate : (mergeMatchFields w l).date = w.date := merge_date hwdate
  have hOurs : isOursMatch env (mergeMatchFields w l) = isOursMatch env w := by
    unfold isOursMatch
    rw [hMhome, hMaway]
  have hdM : normDateKey (mergeMatchFields w l).date = normDateKey w.date := by
    rw [hMdate]
  by_cases ho : isOursMatch env w = true
  · have hOpp : opponentOf env (mergeMatchFields w l) = opponentOf env w := by
      unfold opponentOf
      rw [hMhome, hMaway]
    rw [key_ours env (mergeMatchFields w l) (by rw [hOurs]; exact ho)
        (by rw [hdM]; exact hdW),
      key_ours env w ho hdW, hdM, hOpp]
  · have ho' : isOursMatch env w = false := bool_eq_false ho
    have hoM : isOursMatch env (mergeMatchFields w l) = false := by
      rw [hOurs]
      exact ho'
    have hp1w := (sortPair_mem (canonicalTeamKey env w.home)
      (canonicalTeamKey env w.away)).1
    have hp2w := (sortPair_mem (canonicalTeamKey env w.home)
      (canonicalTeamKey env w.away)).2
    have hnp1 : noBar ((sortPairJs ([canonicalTeamKey env w.home,
        canonicalTeamKey env w.away].filter (fun x => x ≠ ""))).1) := by
      rcases hp1w with h | h | h <;> rw [h]
      · exact hwn1
      · exact hwn2
      · exact noBar_empty
    have hnp2 : noBar ((sortPairJs ([canonicalTeamKey env w.home,
        canonicalTeamKey env w.away].filter (fun x => x ≠ ""))).2) := by
      rcases hp2w with h | h | h <;> rw [h]
      · exact hwn1
      · exact hwn2
      · exact noBar_empty
    by_cases htw : timePartOf w = ""
    · rcases timePartOf_of_wf hwt with ⟨_, hw00⟩ | ⟨heqr, hner, _⟩
      · by_cases hlreal : l.time ≠ "" ∧ l.time ≠ "00:00"
        · exfalso
          have hlhh : isHhmmShape l.time = true := by
            rcases hlt with h | h | h
            · exact absurd h hlreal.1
            · exact absurd h hlreal.2
            · exact h
          have hltp : timePartOf l = l.time := by
            rcases timePartOf_of_wf hlt with ⟨_, hl00⟩ | ⟨heq, _, _⟩
            · rcases hl00 with h | h
              · exact absurd h hlreal.1
              · exact absurd h hlreal.2
            · exact heq
          have hltpne : timePartOf l ≠ "" := by
            rw [hltp]
            exact hlreal.1
          have hkw := key_league_notime env w ho' hdW htw
          by_cases hol : isOursMatch env l = true
          · have hkl := key_ours env l hol hdL
            rw [hkw, hkl] at hk
            obtain ⟨e1, _, _⟩ := join3_inj (iso_len_noBar _ hwd).2 noBar_MY
              hnp1 (iso_len_noBar _ hld).2 hk
            have hlen := (iso_len_noBar _ hwd).1
            rw [e1] at hlen
            exact absurd hlen (by decide)
          · have hol' : isOursMatch env l = false := bool_eq_false hol
            have hkl := key_league_time env l hol' hdL hltpne
            rw [hkw, hkl] at hk
            have hntp : noBar (timePartOf l) := by
              rw [hltp]
              exact (hhmm_facts _ hlhh).2.1
            exact join3_ne_join4 (iso_len_noBar _ hwd).2
              (iso_len_noBar _ hld).2 hnp1 hntp hnp2 hk
        · have hMtime : (mergeMatchFields w l).time = w.time := by
            rw [merge_time, if_neg (by rintro ⟨_, hx⟩; exact hlreal hx)]
          have htM : timePartOf (mergeMatchFields w l) = timePartOf w := by
            unfold timePartOf
            rw [hMtime]
          rw [key_league_notime env (mergeMatchFields w l) hoM
              (by rw [hdM]; exact hdW) (by rw [htM]; exact htw),
            key_league_notime env w ho' hdW htw, hdM, hMhome, hMaway]
      · exact absurd htw (by rw [heqr] at htw; exact absurd htw hner)
    · have hreal : w.time ≠ "" ∧ w.time ≠ "00:00" := by
        rcases timePartOf_of_wf hwt with ⟨h0, _⟩ | ⟨_, h1, h2⟩
        · exact absurd h0 htw
        · exact ⟨h1, h2⟩
      have hMtime : (mergeMatchFields w l).time = w.time := by
        rw [merge_time, if_neg ?_]
        rintro ⟨hx, _⟩
        rcases hx with h | h
        · exact hreal.1 h
        · exact hreal.2 h
      have htM : timePartOf (mergeMatchFields w l) = timePartOf w := by
        unfold timePartOf
        rw [hMtime]
      rw [key_league_time env (mergeMatchFields w l) hoM
          (by rw [hdM]; exact hdW) (by rw [htM]; exact htw),
        key_league_time env w ho' hdW htw, htM, hdM, hMhome, hMaway]

/-- One collision step preserves well-formedness and the shared key. -/
theorem pairStep_stable {env : Env} {a b : Match} (ha : wfMatch env a)
    (hb : wfMatch env b)
    (hk : matchNaturalKey env a = matchNaturalKey env b) :
    matchNaturalKey env (pairStep a b) = matchNaturalKey env a ∧
    wfMatch env (pairStep a b) := by
  unfold pairStep
  by_cases hc : chooseBetterFirst a b = true
  · rw [if_pos hc]
    exact ⟨key_merge_stable ha hb hk, wf_merge ha hb⟩
  · rw [if_neg hc]
    refine ⟨?_, wf_merge hb ha⟩
    rw [key_merge_stable hb ha hk.symm]
    exact hk.symm

theorem mergeGroup_stable {env : Env} (k : String) :
    ∀ (rest : List Match) (m : Match), wfMatch env m →
      matchNaturalKey env m = k →
      (∀ x ∈ rest, wfMatch env x ∧ matchNaturalKey env x = k) →
      matchNaturalKey env (mergeGroup m rest) = k ∧
      wfMatch env (mergeGroup m rest) := by
  intro rest
  induction rest with
  | nil => exact fun m hm hk _ => ⟨hk, hm⟩
  | cons r rest ih =>
    intro m hm hk hrest
    unfold mergeGroup
    rw [List.foldl_cons]
    have hr := hrest r (by simp)
    have hps := pairStep_stable hm hr.1 (by rw [hk, hr.2])
    exact ih (pairStep m r) hps.2 (by rw [hps.1]; exact hk)
      (fun x hx => hrest x (by simp [hx]))

theorem specEntry_stable {env : Env} {list : List Match}
    (hwf : ∀ m ∈ list, wfMatch env m) (k : String)
    (hk : k ∈ list.map (matchNaturalKey env)) :
    matchNaturalKey env (specEntry env list k) = k ∧
    wfMatch env (specEntry env list k) := by
  unfold specEntry
  cases hf : list.filter (fun m => decide (matchNaturalKey env m = k)) with
  | nil =>
    exfalso
    rcases List.mem_map.mp hk with ⟨m, hm, hkey⟩
    have hmf : m ∈ list.filter
        (fun m => decide (matchNaturalKey env m = k)) :=
      List.mem_filter.mpr ⟨hm, by simp [hkey]⟩
    rw [hf] at hmf
    cases hmf
  | cons m0 rest =>
    have hmem : ∀ x ∈ m0 :: rest,
        wfMatch env x ∧ matchNaturalKey env x = k := by
      intro x hx
      rw [← hf] at hx
      have hx2 := List.mem_filter.mp hx
      exact ⟨hwf x hx2.1, of_decide_eq_true hx2.2⟩
    exact mergeGroup_stable k rest m0 (hmem m0 (by simp)).1
      (hmem m0 (by simp)).2 (fun x hx => hmem x (by simp [hx]))

theorem dedupe_char (env : Env) (l : List Match) :
    dedupeMatches env l =
      (firstKeys (l.map (matchNaturalKey env))).map (specEntry env l) := by
  unfold dedupeMatches
  rw [foldl_dedupeStep_eq, List.map_map]
  rfl

theorem filter_self_of_nodup_keys {env : Env} :
    ∀ (ms : List Match), (ms.map (matchNaturalKey env)).Nodup →
      ∀ m ∈ ms, ms.filter (fun x =>
        decide (matchNaturalKey env x = matchNaturalKey env m)) = [m] := by
  intro ms
  induction ms with
  | nil => exact fun _ m hm => absurd hm (List.not_mem_nil m)
  | cons m0 ms ih =>
    intro hnd m hm
    rw [List.map_cons, List.nodup_cons] at hnd
    rcases List.mem_cons.mp hm with heq | hm2
    · rw [heq]
      rw [List.filter_cons, if_pos (by simp)]
      have he : ms.filter (fun x =>
          decide (matchNaturalKey env x = matchNaturalKey env m0)) = [] := by
        rw [List.filter_eq_nil_iff]
        intro a ha hd
        exact hnd.1 (of_decide_eq_true hd ▸ List.mem_map_of_mem _ ha)
      rw [he]
    · have hkey : matchNaturalKey env m0 ≠ matchNaturalKey env m := by
        intro he
        refine hnd.1 ?_
        rw [he]
        exact List.mem_map_of_mem _ hm2
      rw [List.filter_cons, if_neg (by simpa using hkey)]
      exact ih hnd.2 m hm2

theorem map_pointwise_id {α : Type} {l : List α} {f : α → α}
    (h : ∀ a ∈ l, f a = a) : l.map f = l := by
  induction l with
  | nil => rfl
  | cons a t ih =>
    rw [List.map_cons, h a (by simp), ih (fun x hx => h x (by simp [hx]))]

theorem dedupe_fixed_of_nodup (env : Env) (ms : List Match)
    (h : (ms.map (matchNaturalKey env)).Nodup) :
    dedupeMatches env ms = ms := by
  rw [dedupe_char, firstKeys_eq_self_of_nodup _ h, List.map_map]
  refine map_pointwise_id ?_
  intro m hm
  simp only [Function.comp_apply]
  unfold specEntry
  rw [filter_self_of_nodup_keys ms h m hm]
  rfl

set_option maxHeartbeats 2000000 in
theorem dedupe_wf_nodup {env : Env} {l : List Match}
    (h : ∀ m ∈ l, wfMatch env m) :
    ((dedupeMatches env l).map (matchNaturalKey env)).Nodup := by
  rw [dedupe_char, List.map_map]
  have hpt : (firstKeys (l.map (matchNaturalKey env))).map
      (matchNaturalKey env ∘ specEntry env l) =
      firstKeys (l.map (matchNaturalKey env)) := by
    refine map_pointwise_id ?_
    intro k hk
    simp only [Function.comp_apply]
    have hs := specEntry_stable h k
      ((mem_firstKeys (l.map (matchNaturalKey env)) k).mp hk)
    exact hs.1
  rw [hpt]
  exact firstKeys_nodup _

/-- C2 (counterexample): the claim says deduplication is idempotent on
every list of normalized matches; but a merged record's recomputed key
can migrate into another group's key. In `[cA, cB, cC]`, `cB` merges into
`cA` (filling its real time), the merged record's key now equals `cC`'s,
and the second pass merges `cC` away: the output sets differ. -/
theorem dedupe_idempotent_C2_counterexample :
    cC ∈ dedupeMatches envW [cA, cB, cC] ∧
    cC ∉ dedupeMatches envW (dedupeMatches envW [cA, cB, cC]) :=
  ⟨by decide, by decide⟩

/-- C2 (amended): deduplication is idempotent on lists of well-formed
matches (ISO-shaped date key; time empty, `00:00`, or `HH:MM`; nonempty
team names with separator-free canonical keys) — indeed the second pass
returns the first pass's list unchanged. -/
theorem dedupe_idempotent_amended_C2 (env : Env) (l : List Match)
    (h : ∀ m ∈ l, wfMatch env m) :
    dedupeMatches env (dedupeMatches env l) = dedupeMatches env l :=
  dedupe_fixed_of_nodup env _ (dedupe_wf_nodup h)

/-- Witness for the amended C2 at a concrete well-formed list. -/
theorem dedupe_idempotent_amended_C2_witness :
    (∀ m ∈ [v1, v2], wfMatch envW m) ∧
    dedupeMatches envW (dedupeMatches envW [v1, v2]) =
      dedupeMatches envW [v1, v2] :=
  ⟨by decide, dedupe_idempotent_amended_C2 envW [v1, v2] (by decide)⟩

/-! ## C4 lemmas -/

theorem applyKeyed_fst (ops : List (String × (Row → Row))) (q : String × Row) :
    (applyKeyed ops q).1 = q.1 := by
  unfold applyKeyed
  induction ops generalizing q with
  | nil => rfl
  | cons op ops ih =>
      rw [List.foldl_cons]
      by_cases h : q.1 = op.1
      · rw [if_pos h]; exact ih _
      · rw [if_neg h]; exact ih q

theorem updRow_eq_map (t : List (String × Row)) (k : String) (f : Row → Row) :
    updRow t k f = t.map (applyKeyed [(k, f)]) := by
  unfold updRow
  exact List.map_congr_left (fun q _ => rfl)

theorem map_applyKeyed_map (t : List (String × Row))
    (o1 o2 : List (String × (Row → Row))) :
    (t.map (applyKeyed o1)).map (applyKeyed o2) =
      t.map (applyKeyed (o1 ++ o2)) := by
  rw [List.map_map]
  refine List.map_congr_left (fun q _ => ?_)
  simp only [Function.comp_apply]
  unfold applyKeyed
  rw [List.foldl_append]

theorem tableStep_win (tab : List (String × Row)) (m : Match) (hs as : ℚ)
    (hh : m.hs = some hs) (ha : m.as = some as) (hlt : as < hs) :
    tableStep tab m =
      (ensureTeam (ensureTeam tab m.home) m.away).map
        (applyKeyed (winOps (normName m.home) (normName m.away) hs as)) := by
  unfold tableStep
  rw [hh, ha]
  simp only []
  rw [if_pos hlt]
  rw [updRow_eq_map, updRow_eq_map, updRow_eq_map, updRow_eq_map,
      updRow_eq_map, updRow_eq_map]
  rw [map_applyKeyed_map, map_applyKeyed_map, map_applyKeyed_map,
      map_applyKeyed_map, map_applyKeyed_map]
  rfl

theorem tableStep_loss (tab : List (String × Row)) (m : Match) (hs as : ℚ)
    (hh : m.hs = some hs) (ha : m.as = some as) (hlt : hs < as) :
    tableStep tab m =
      (ensureTeam (ensureTeam tab m.home) m.away).map
        (applyKeyed (lossOps (normName m.home) (normName m.away) hs as)) := by
  unfold tableStep
  rw [hh, ha]
  simp only []
  rw [if_neg (not_lt.mpr (le_of_lt hlt)), if_pos hlt]
  rw [updRow_eq_map, updRow_eq_map, updRow_eq_map, updRow_eq_map,
      updRow_eq_map, updRow_eq_map]
  rw [map_applyKeyed_map, map_applyKeyed_map, map_applyKeyed_map,
      map_applyKeyed_map, map_applyKeyed_map]
  rfl

theorem tableStep_draw (tab : List (String × Row)) (m : Match) (hs as : ℚ)
    (hh : m.hs = some hs) (ha : m.as = some as) (heq : hs = as) :
    tableStep tab m =
      (ensureTeam (ensureTeam tab m.home) m.away).map
        (applyKeyed (drawOps (normName m.home) (normName m.away) hs as)) := by
  unfold tableStep
  rw [hh, ha]
  simp only []
  rw [if_neg (by rw [heq]; exact lt_irrefl as),
      if_neg (by rw [heq]; exact lt_irrefl as)]
  rw [updRow_eq_map, updRow_eq_map, updRow_eq_map, updRow_eq_map,
      updRow_eq_map, updRow_eq_map]
  rw [map_applyKeyed_map, map_applyKeyed_map, map_applyKeyed_map,
      map_applyKeyed_map, map_applyKeyed_map]
  rfl

theorem rowBalanced_applyKeyed_win (hk ak : String) (hs as : ℚ)
    (q : String × Row) (hb : rowBalanced q.2) :
    rowBalanced (applyKeyed (winOps hk ak hs as) q).2 := by
  obtain ⟨h1, h2⟩ := hb
  by_cases e1 : q.1 = hk
  · by_cases e2 : q.1 = ak
    · subst e1; subst e2
      simp [applyKeyed, winOps, rowBalanced]
      omega
    · subst e1
      simp [applyKeyed, winOps, rowBalanced, e2]
      omega
  · by_cases e2 : q.1 = ak
    · subst e2
      simp [applyKeyed, winOps, rowBalanced, e1]
      omega
    · simp [applyKeyed, winOps, rowBalanced, e1, e2]
      omega

theorem rowBalanced_applyKeyed_loss (hk ak : String) (hs as : ℚ)
    (q : String × Row) (hb : rowBalanced q.2) :
    rowBalanced (applyKeyed (lossOps hk ak hs as) q).2 := by
  obtain ⟨h1, h2⟩ := hb
  by_cases e1 : q.1 = hk
  · by_cases e2 : q.1 = ak
    · subst e1; subst e2
      simp [applyKeyed, lossOps, rowBalanced]
      omega
    · subst e1
      simp [applyKeyed, lossOps, rowBalanced, e2]
      omega
  · by_cases e2 : q.1 = ak
    · subst e2
      simp [applyKeyed, lossOps, rowBalanced, e1]
      omega
    · simp [applyKeyed, lossOps, rowBalanced, e1, e2]
      omega

theorem rowBalanced_applyKeyed_draw (hk ak : String) (hs as : ℚ)
    (q : String × Row) (hb : rowBalanced q.2) :
    rowBalanced (applyKeyed (drawOps hk ak hs as) q).2 := by
  obtain ⟨h1, h2⟩ := hb
  by_cases e1 : q.1 = hk
  · by_cases e2 : q.1 = ak
    · subst e1; subst e2
      simp [applyKeyed, drawOps, rowBalanced]
      omega
    · subst e1
      simp [applyKeyed, drawOps, rowBalanced, e2]
      omega
  · by_cases e2 : q.1 = ak
    · subst e2
      simp [applyKeyed, drawOps, rowBalanced, e1]
      omega
    · simp [applyKeyed, drawOps, rowBalanced, e1, e2]
      omega

theorem gd_applyKeyed_win (hk ak : String) (hs as : ℚ) (q : String × Row) :
    (applyKeyed (winOps hk ak hs as) q).2.gf -
        (applyKeyed (winOps hk ak hs as) q).2.ga =
      q.2.gf - q.2.ga + (if q.1 = hk then hs - as else 0) +
        (if q.1 = ak then as - hs else 0) := by
  by_cases e1 : q.1 = hk
  · by_cases e2 : q.1 = ak
    · subst e1; subst e2
      simp [applyKeyed, winOps]
      ring
    · subst e1
      simp [applyKeyed, winOps, e2]
      ring
  · by_cases e2 : q.1 = ak
    · subst e2
      simp [applyKeyed, winOps, e1]
      ring
    · simp [applyKeyed, winOps, e1, e2]

theorem gd_applyKeyed_loss (hk ak : String) (hs as : ℚ) (q : String × Row) :
    (applyKeyed (lossOps hk ak hs as) q).2.gf -
        (applyKeyed (lossOps hk ak hs as) q).2.ga =
      q.2.gf - q.2.ga + (if q.1 = hk then hs - as else 0) +
        (if q.1 = ak then as - hs else 0) := by
  by_cases e1 : q.1 = hk
  · by_cases e2 : q.1 = ak
    · subst e1; subst e2
      simp [applyKeyed, lossOps]
      ring
    · subst e1
      simp [applyKeyed, lossOps, e2]
      ring
  · by_cases e2 : q.1 = ak
    · subst e2
      simp [applyKeyed, lossOps, e1]
      ring
    · simp [applyKeyed, lossOps, e1, e2]

theorem gd_applyKeyed_draw (hk ak : String) (hs as : ℚ) (q : String × Row) :
    (applyKeyed (drawOps hk ak hs as) q).2.gf -
        (applyKeyed (drawOps hk ak hs as) q).2.ga =
      q.2.gf - q.2.ga + (if q.1 = hk then hs - as else 0) +
        (if q.1 = ak then as - hs else 0) := by
  by_cases e1 : q.1 = hk
  · by_cases e2 : q.1 = ak
    · subst e1; subst e2
      simp [applyKeyed, drawOps]
      ring
    · subst e1
      simp [applyKeyed, drawOps, e2]
      ring
  · by_cases e2 : q.1 = ak
    · subst e2
      simp [applyKeyed, drawOps, e1]
      ring
    · simp [applyKeyed, drawOps, e1, e2]

theorem ensureTeam_inv (tab : List (String × Row)) (name : String)
    (h : tableInv tab) : tableInv (ensureTeam tab name) := by
  unfold ensureTeam
  simp only []
  by_cases hf : (List.find? (fun p => decide (p.1 = normName name)) tab).isSome = true
  · rw [if_pos hf]; exact h
  · rw [if_neg hf]
    obtain ⟨h1, h2, h3⟩ := h
    have hk : normName name ∉ tab.map Prod.fst := by
      intro hmem
      apply hf
      rw [List.find?_isSome]
      obtain ⟨q, hq, hq1⟩ := List.mem_map.mp hmem
      exact ⟨q, hq, by simp [hq1]⟩
    refine ⟨?_, ?_, ?_⟩
    · rw [List.map_append]
      simp only [List.nodup_append, List.map_cons, List.map_nil]
      refine ⟨h1, List.nodup_singleton _, ?_⟩
      intro a ha hb
      simp only [List.mem_singleton] at hb
      exact hk (hb ▸ ha)
    · intro q hq
      rcases List.mem_append.mp hq with hq | hq
      · exact h2 q hq
      · simp only [List.mem_singleton] at hq
        subst hq
        simp [rowBalanced, freshRow]
    · rw [List.map_append, List.map_append, List.sum_append, List.sum_append]
      simp [freshRow, h3]

theorem ensureTeam_mem (tab : List (String × Row)) (name : String) :
    normName name ∈ (ensureTeam tab name).map Prod.fst := by
  unfold ensureTeam
  simp only []
  by_cases hf : (List.find? (fun p => decide (p.1 = normName name)) tab).isSome = true
  · rw [if_pos hf]
    rw [Option.isSome_iff_exists] at hf
    obtain ⟨q, hq⟩ := hf
    have hpq := List.find?_some hq
    have hmem := List.mem_of_find?_eq_some hq
    exact List.mem_map.mpr ⟨q, hmem, of_decide_eq_true hpq⟩
  · rw [if_neg hf, List.map_append]
    simp

theorem ensureTeam_mem_mono (tab : List (String × Row)) (name k : String)
    (h : k ∈ tab.map Prod.fst) : k ∈ (ensureTeam tab name).map Prod.fst := by
  unfold ensureTeam
  simp only []
  by_cases hf : (List.find? (fun p => decide (p.1 = normName name)) tab).isSome = true
  · rw [if_pos hf]; exact h
  · rw [if_neg hf, List.map_append]
    exact List.mem_append_left _ h

theorem countP_keys_eq_one (t : List (String × Row)) (k : String)
    (hnd : (t.map Prod.fst).Nodup) (hk : k ∈ t.map Prod.fst) :
    t.countP (fun q => decide (q.1 = k)) = 1 := by
  induction t with
  | nil => simp at hk
  | cons q t ih =>
      rw [List.map_cons, List.nodup_cons] at hnd
      rw [List.map_cons, List.mem_cons] at hk
      rw [List.countP_cons]
      by_cases h : q.1 = k
      · have hz : t.countP (fun q => decide (q.1 = k)) = 0 := by
          rw [List.countP_eq_zero]
          intro a ha
          simp only [decide_eq_true_eq]
          intro hak
          exact hnd.1 (List.mem_map.mpr ⟨a, ha, hak.trans h.symm⟩)
        rw [hz]
        simp [h]
      · rcases hk with hk | hk
        · exact absurd hk.symm h
        · rw [if_neg (by simpa using h)]
          rw [Nat.add_zero]
          exact ih hnd.2 hk

theorem sum_map_sub_gd (t : List (String × Row)) :
    (t.map (fun q => q.2.gf - q.2.ga)).sum =
      (t.map (fun q => q.2.gf)).sum - (t.map (fun q => q.2.ga)).sum := by
  induction t with
  | nil => simp
  | cons q t ih =>
      simp only [List.map_cons, List.sum_cons, ih]
      ring

theorem sum_gd_delta (φ : String × Row → String × Row) (hk ak : String)
    (hs as : ℚ)
    (hgd : ∀ q, (φ q).2.gf - (φ q).2.ga = q.2.gf - q.2.ga +
      (if q.1 = hk then hs - as else 0) + (if q.1 = ak then as - hs else 0)) :
    ∀ t : List (String × Row),
      (t.map (fun q => (φ q).2.gf - (φ q).2.ga)).sum =
        (t.map (fun q => q.2.gf - q.2.ga)).sum +
          (hs - as) * (t.countP (fun q => decide (q.1 = hk)) : ℚ) +
          (as - hs) * (t.countP (fun q => decide (q.1 = ak)) : ℚ) := by
  intro t
  induction t with
  | nil => simp
  | cons q t ih =>
      rw [List.map_cons, List.map_cons, List.sum_cons, List.sum_cons, ih,
          List.countP_cons, List.countP_cons, hgd q]
      by_cases e1 : q.1 = hk
      · by_cases e2 : q.1 = ak
        · rw [if_pos e1, if_pos e2, if_pos (decide_eq_true e1),
              if_pos (decide_eq_true e2)]
          push_cast
          ring
        · rw [if_pos e1, if_neg e2, if_pos (decide_eq_true e1),
              if_neg (by simp [e2])]
          push_cast
          ring
      · by_cases e2 : q.1 = ak
        · rw [if_neg e1, if_pos e2, if_neg (by simp [e1]),
              if_pos (decide_eq_true e2)]
          push_cast
          ring
        · rw [if_neg e1, if_neg e2, if_neg (by simp [e1]),
              if_neg (by simp [e2])]
          push_cast
          ring

theorem tableInv_map (t : List (String × Row)) (φ : String × Row → String × Row)
    (hk ak : String) (hs as : ℚ)
    (hfst : ∀ q, (φ q).1 = q.1)
    (hbal : ∀ q, rowBalanced q.2 → rowBalanced (φ q).2)
    (hgd : ∀ q, (φ q).2.gf - (φ q).2.ga = q.2.gf - q.2.ga +
      (if q.1 = hk then hs - as else 0) + (if q.1 = ak then as - hs else 0))
    (hinv : tableInv t) (hmh : hk ∈ t.map Prod.fst)
    (hma : ak ∈ t.map Prod.fst) :
    tableInv (t.map φ) := by
  obtain ⟨h1, h2, h3⟩ := hinv
  have hkeys : (t.map φ).map Prod.fst = t.map Prod.fst := by
    rw [List.map_map]
    exact List.map_congr_left (fun q _ => hfst q)
  refine ⟨?_, ?_, ?_⟩
  · rw [hkeys]; exact h1
  · intro q hq
    obtain ⟨q0, hq0, rfl⟩ := List.mem_map.mp hq
    exact hbal q0 (h2 q0 hq0)
  · have hd := sum_gd_delta φ hk ak hs as hgd t
    rw [countP_keys_eq_one t hk h1 hmh, countP_keys_eq_one t ak h1 hma] at hd
    have hl : ((t.map φ).map (fun q => q.2.gf - q.2.ga)).sum =
        (t.map (fun q => (φ q).2.gf - (φ q).2.ga)).sum := by
      rw [List.map_map]
      exact congrArg List.sum (List.map_congr_left (fun q _ => rfl))
    have e1 := sum_map_sub_gd (t.map φ)
    have e2 := sum_map_sub_gd t
    rw [hl, hd, e2] at e1
    have e3 : ((t.map φ).map (fun q => q.2.gf)).sum -
        ((t.map φ).map (fun q => q.2.ga)).sum = 0 := by
      rw [← e1, h3]
      push_cast
      ring
    exact sub_eq_zero.mp e3

theorem tableInv_tableStep (tab : List (String × Row)) (m : Match)
    (h : tableInv tab) : tableInv (tableStep tab m) := by
  cases hh : m.hs with
  | none =>
      cases ha : m.as <;> simp only [tableStep, hh, ha] <;> exact h
  | some hs =>
    cases ha : m.as with
    | none => simp only [tableStep, hh, ha]; exact h
    | some as =>
      have h2 : tableInv (ensureTeam (ensureTeam tab m.home) m.away) :=
        ensureTeam_inv _ _ (ensureTeam_inv _ _ h)
      have hmh : normName m.home ∈
          ((ensureTeam (ensureTeam tab m.home) m.away).map Prod.fst) :=
        ensureTeam_mem_mono _ _ _ (ensureTeam_mem tab m.home)
      have hma : normName m.away ∈
          ((ensureTeam (ensureTeam tab m.home) m.away).map Prod.fst) :=
        ensureTeam_mem _ m.away
      rcases lt_trichotomy as hs with hlt | heq | hgt
      · rw [tableStep_win tab m hs as hh ha hlt]
        exact tableInv_map _ _ _ _ hs as
          (fun q => applyKeyed_fst _ q)
          (fun q hb => rowBalanced_applyKeyed_win _ _ hs as q hb)
          (fun q => gd_applyKeyed_win _ _ hs as q) h2 hmh hma
      · rw [tableStep_draw tab m hs as hh ha heq.symm]
        exact tableInv_map _ _ _ _ hs as
          (fun q => applyKeyed_fst _ q)
          (fun q hb => rowBalanced_applyKeyed_draw _ _ hs as q hb)
          (fun q => gd_applyKeyed_draw _ _ hs as q) h2 hmh hma
      · rw [tableStep_loss tab m hs as hh ha hgt]
        exact tableInv_map _ _ _ _ hs as
          (fun q => applyKeyed_fst _ q)
          (fun q hb => rowBalanced_applyKeyed_loss _ _ hs as q hb)
          (fun q => gd_applyKeyed_loss _ _ hs as q) h2 hmh hma

theorem tableInv_nil : tableInv [] := by
  refine ⟨List.nodup_nil, ?_, rfl⟩
  intro q hq
  cases hq

theorem tableInv_fold (ms : List Match) :
    ∀ acc, tableInv acc → tableInv (ms.foldl tableStep acc) := by
  induction ms with
  | nil => intro acc h; exact h
  | cons m ms ih =>
      intro acc h
      rw [List.foldl_cons]
      exact ih _ (tableInv_tableStep _ _ h)

theorem tableStep_skip (tab : List (String × Row)) (m : Match)
    (h : (m.hs.isSome && m.as.isSome) = false) : tableStep tab m = tab := by
  cases hh : m.hs <;> cases ha : m.as <;>
    simp only [tableStep, hh, ha] <;> simp [hh, ha] at h

theorem foldl_filter_scores (ms : List Match) :
    ∀ acc, ms.foldl tableStep acc =
      (ms.filter (fun m => m.hs.isSome && m.as.isSome)).foldl tableStep acc := by
  induction ms with
  | nil => intro acc; rfl
  | cons m ms ih =>
      intro acc
      rw [List.foldl_cons, List.filter_cons]
      by_cases h : (m.hs.isSome && m.as.isSome) = true
      · rw [if_pos h, List.foldl_cons]
        exact ih _
      · rw [if_neg h, tableStep_skip acc m (by simpa using h)]
        exact ih _

/-- C4: in every computed standings table each row has `p = w + d + l` and
`pts = 3 * w + d`, total goals for equal total goals against, and matches
missing either score contribute nothing: the table equals the one computed
from the score-complete sublist. -/
theorem standings_invariant_C4 (ms : List Match) :
    (∀ row ∈ computeTable ms,
        row.p = row.w + row.d + row.l ∧ row.pts = 3 * row.w + row.d) ∧
    ((computeTable ms).map (fun r => r.gf)).sum =
        ((computeTable ms).map (fun r => r.ga)).sum ∧
    computeTable ms =
      computeTable (ms.filter (fun m => m.hs.isSome && m.as.isSome)) := by
  obtain ⟨h1, h2, h3⟩ := tableInv_fold ms [] tableInv_nil
  have hperm : List.Perm (computeTable ms)
      ((ms.foldl tableStep []).map (fun q =>
        ({ name := q.2.name, p := q.2.p, w := q.2.w, d := q.2.d, l := q.2.l,
           gf := q.2.gf, ga := q.2.ga, pts := q.2.pts,
           gd := q.2.gf - q.2.ga } : Standing))) := by
    unfold computeTable
    exact List.perm_insertionSort stRel _
  refine ⟨?_, ?_, ?_⟩
  · intro row hrow
    have hmem := hperm.mem_iff.mp hrow
    obtain ⟨q, hq, rfl⟩ := List.mem_map.mp hmem
    exact h2 q hq
  · have hgf := (hperm.map (fun r => r.gf)).sum_eq
    have hga := (hperm.map (fun r => r.ga)).sum_eq
    rw [hgf, hga, List.map_map, List.map_map]
    have egf : ((ms.foldl tableStep []).map
        ((fun r => r.gf) ∘ (fun q =>
          ({ name := q.2.name, p := q.2.p, w := q.2.w, d := q.2.d, l := q.2.l,
             gf := q.2.gf, ga := q.2.ga, pts := q.2.pts,
             gd := q.2.gf - q.2.ga } : Standing)))).sum =
        ((ms.foldl tableStep []).map (fun q => q.2.gf)).sum :=
      congrArg List.sum (List.map_congr_left (fun q _ => rfl))
    have ega : ((ms.foldl tableStep []).map
        ((fun r => r.ga) ∘ (fun q =>
          ({ name := q.2.name, p := q.2.p, w := q.2.w, d := q.2.d, l := q.2.l,
             gf := q.2.gf, ga := q.2.ga, pts := q.2.pts,
             gd := q.2.gf - q.2.ga } : Standing)))).sum =
        ((ms.foldl tableStep []).map (fun q => q.2.ga)).sum :=
      congrArg List.sum (List.map_congr_left (fun q _ => rfl))
    rw [egf, ega]
    exact h3
  · unfold computeTable
    rw [foldl_filter_scores ms []]

end Galil

